import Mathlib

/-!
Instance-type extensions: the matching-and-caching engine.

A shallow embedding of `pkg/controllers/provisioning/extensions.go`.

* A Go `map[string]V` that the code reads and writes by key is a `GoMap V`
  (a finite map with unique keys and no order, so that two maps are equal
  exactly when they hold the same entries).  A map that may be `nil` is an
  `Option (GoMap V)`: reading a `nil` map gives the zero value, assigning into
  it is a run-time failure.
* A Go map that the code only ranges over is a `RangeMap V`: its entries, keys
  unique, in the order one iteration visits them.
* A pointer that may be `nil` is an `Option`; a run-time failure (Go `panic`)
  is an `Except.error`.
* Candidates are passed by value and returned updated: the in-place mutation of
  `instanceType.Capacity` becomes the returned candidate.  Distinct list
  positions are distinct objects with capacity maps of their own.
* The data model of the specification gives every instance type a name and a
  capacity mapping: `candidate name capacity` is such a candidate (a non-nil
  pointer, a non-nil map), and the results on what the engine computes are
  stated for these candidates.  The definitions also cover `nil` candidates,
  `nil` capacity maps and a `nil` node pool, where the Go code fails.
* `labelGate` is the label gate as the code computes it, the result of the loop
  of `addExtension`; `specLabelGate` is the label gate in the words of the
  specification (every required key exists in the labels of the pool with an
  identical value).  They agree on every rule that requires no empty value
  (`labelGate_eq_specLabelGate`) and differ where a required key with the empty
  value is missing from the pool.
* `regexp` is the Go standard library: the embedding is parametric in the type
  `R` of compiled patterns, in `MatchString : R → String → Bool` and in
  `Compile : String → Option R`.
-/

namespace Provisioning

/-- A Go map with string keys that is read and written by key. -/
abbrev GoMap (V : Type) := Finmap (fun _ : String => V)

/-- A Go map with string keys that is only ranged over: the entries in the
order of one iteration. -/
abbrev RangeMap (V : Type) := AList (fun _ : String => V)

/-- The value of a `resource.Quantity` built by `resource.NewQuantity(value,
resource.DecimalSI)`: the integer it was built from. -/
abbrev Quantity := Int

/-- Run-time failures of the Go code. -/
inductive Panic where
  | nilDereference
  | nilMapAssignment
deriving DecidableEq, Repr

/-- The fields of `v1beta1.NodePool` the engine reads. -/
structure NodePool where
  Name : String
  Namespace : String
  Labels : Option (GoMap String)
deriving DecidableEq

/-- The fields of `cloudprovider.InstanceType` the engine reads and writes. -/
structure InstanceType where
  Name : String
  Capacity : Option (GoMap Quantity)
deriving DecidableEq

/-- Go `type extensionJson struct`. -/
structure extensionJson where
  InstanceNameRegex : String
  ExtendedResources : RangeMap Int
  RequiredNodePoolLabels : RangeMap String
deriving DecidableEq

/-- Go `type extension struct`. -/
structure extension (R : Type) where
  requiredNPLabels : RangeMap String
  regex : R
  extendedResources : RangeMap Quantity
deriving DecidableEq

/-- Go `type InstanceTypeExtender struct`: `solvedMatches` maps a node pool key
to a map from instance type name to the matched rule or `nil` (`none`). -/
structure InstanceTypeExtender (R : Type) where
  solvedMatches : GoMap (GoMap (Option (extension R)))
  extensions : List (extension R)
deriving DecidableEq

/-- Go `m[k]` on a `map[string]string` that may be `nil`: the zero value `""`
when the key is missing. -/
def goIndex (m : Option (GoMap String)) (k : String) : String :=
  match m with
  | none => ""
  | some mp => (mp.lookup k).getD ""

/-- Go `len(m)` on a map that may be `nil`. -/
def goLen {V : Type} (m : Option (GoMap V)) : Nat :=
  match m with
  | none => 0
  | some mp => mp.keys.card

/-- Go `getKey`: `np.Name + "&" + np.Namespace`, a nil dereference when `np` is
`nil`. -/
def getKey : Option NodePool → Except Panic String
  | none => .error .nilDereference
  | some np => .ok (np.Name ++ "&" ++ np.Namespace)

/-- Go `instanceType.Capacity[res] = val`. -/
def setCapacity (instanceType : Option InstanceType) (res : String) (val : Quantity) :
    Except Panic (Option InstanceType) :=
  match instanceType with
  | none => .error .nilDereference
  | some it =>
    match it.Capacity with
    | none => .error .nilMapAssignment
    | some c => .ok (some { it with Capacity := some (c.insert res val) })

/-- The loop of `addExtendedResources` over the entries still to visit. -/
def rangeResources (instanceType : Option InstanceType) :
    List (Sigma fun _ : String => Quantity) → Except Panic (Option InstanceType)
  | [] => .ok instanceType
  | ⟨res, val⟩ :: rest =>
    match setCapacity instanceType res val with
    | .error p => .error p
    | .ok it => rangeResources it rest

/-- Go `addExtendedResources`. -/
def addExtendedResources {R : Type} (instanceType : Option InstanceType) (ext : extension R) :
    Except Panic (Option InstanceType) :=
  rangeResources instanceType ext.extendedResources.entries

/-- The loop of `addExtension` over the required labels still to visit; the
result is the final `labelsMatch`. -/
def rangeLabels (nodePool : Option NodePool) :
    List (Sigma fun _ : String => String) → Except Panic Bool
  | [] => .ok true
  | ⟨labelName, val⟩ :: rest =>
    match nodePool with
    | none => .error .nilDereference
    | some np =>
      if goIndex np.Labels labelName != val then .ok false
      else rangeLabels nodePool rest

/-- Go `addExtension`: the updated candidate and the returned `labelsMatch`. -/
def addExtension {R : Type} (instanceType : Option InstanceType) (ext : extension R)
    (nodePool : Option NodePool) : Except Panic (Option InstanceType × Bool) :=
  match rangeLabels nodePool ext.requiredNPLabels.entries with
  | .error p => .error p
  | .ok true =>
    match addExtendedResources instanceType ext with
    | .error p => .error p
    | .ok it => .ok (it, true)
  | .ok false => .ok (instanceType, false)

section Engine

variable {R : Type} (MatchString : R → String → Bool)

/-- The loop "try regexps one at a time" of `addInstanceTypeExtensions` over
the rules still to try: the updated candidate and the final `match`. -/
def scanExtensions (name : String) (instanceType : Option InstanceType)
    (nodePool : Option NodePool) :
    List (extension R) → Except Panic (Option InstanceType × Option (extension R))
  | [] => .ok (instanceType, none)
  | ext :: rest =>
    if MatchString ext.regex name then
      match addExtension instanceType ext nodePool with
      | .error p => .error p
      | .ok (it, true) => .ok (it, some ext)
      | .ok (it, false) => scanExtensions name it nodePool rest
    else scanExtensions name instanceType nodePool rest

/-- Go `(*InstanceTypeExtender).addInstanceTypeExtensions`. -/
def addInstanceTypeExtensions (e : InstanceTypeExtender R) (poolKey : String)
    (instanceType : Option InstanceType) (nodePool : Option NodePool) :
    Except Panic (InstanceTypeExtender R × Option InstanceType) :=
  match instanceType with
  | none => .error .nilDereference
  | some it =>
    match (e.solvedMatches.lookup poolKey).bind (Finmap.lookup it.Name) with
    | some (some ext) =>
      match addExtendedResources instanceType ext with
      | .error p => .error p
      | .ok it1 => .ok (e, it1)
    | some none => .ok (e, instanceType)
    | none =>
      match scanExtensions MatchString it.Name instanceType nodePool e.extensions with
      | .error p => .error p
      | .ok (it1, m) =>
        match e.solvedMatches.lookup poolKey with
        | none => .error .nilMapAssignment
        | some seg =>
          .ok ({ e with solvedMatches := e.solvedMatches.insert poolKey (seg.insert it.Name m) },
               it1)

/-- The loop of `AddInstanceTypeExtensions` over the candidates still to
visit. -/
def rangeInstanceTypes (poolKey : String) (nodePool : Option NodePool) :
    InstanceTypeExtender R → List (Option InstanceType) →
    Except Panic (InstanceTypeExtender R × List (Option InstanceType))
  | e, [] => .ok (e, [])
  | e, instanceType :: rest =>
    match addInstanceTypeExtensions MatchString e poolKey instanceType nodePool with
    | .error p => .error p
    | .ok (e1, it1) =>
      match rangeInstanceTypes poolKey nodePool e1 rest with
      | .error p => .error p
      | .ok (e2, rest1) => .ok (e2, it1 :: rest1)

/-- Go `(*InstanceTypeExtender).AddInstanceTypeExtensions`. -/
def AddInstanceTypeExtensions (e : InstanceTypeExtender R)
    (instanceTypeOptions : List (Option InstanceType)) (nodePool : Option NodePool) :
    Except Panic (InstanceTypeExtender R × List (Option InstanceType)) :=
  match getKey nodePool with
  | .error p => .error p
  | .ok poolKey =>
    if (goLen (e.solvedMatches.lookup poolKey) == 0 && e.extensions.length == 0)
        || instanceTypeOptions.length == 0 || nodePool.isNone then
      .ok (e, instanceTypeOptions)
    else
      let e1 : InstanceTypeExtender R :=
        if (e.solvedMatches.lookup poolKey).isNone then
          { e with solvedMatches := e.solvedMatches.insert poolKey ∅ }
        else e
      rangeInstanceTypes MatchString poolKey nodePool e1 instanceTypeOptions

end Engine

section Construction

variable {R : Type} (Compile : String → Option R)

/-- The loop of `init` that copies `ExtendedResources` into a fresh
`v1.ResourceList`. -/
def rangeQuantities (resList : RangeMap Quantity) :
    List (Sigma fun _ : String => Int) → RangeMap Quantity
  | [] => resList
  | ⟨key, value⟩ :: rest => rangeQuantities (resList.insert key value) rest

/-- The loop of `init` over the raw rules still to compile. -/
def rangeExtensionList (e : InstanceTypeExtender R) :
    List extensionJson → InstanceTypeExtender R
  | [] => e
  | instanceTypeExtension :: rest =>
    match Compile instanceTypeExtension.InstanceNameRegex with
    | none => rangeExtensionList e rest
    | some regex =>
      let resList := rangeQuantities ∅ instanceTypeExtension.ExtendedResources.entries
      rangeExtensionList
        { e with extensions := e.extensions ++
            [{ regex := regex,
               requiredNPLabels := instanceTypeExtension.RequiredNodePoolLabels,
               extendedResources := resList }] }
        rest

/-- Go `(*InstanceTypeExtender).init`; `extensionList` is what
`readExtensions` returned, `none` for `nil` (file unreadable or unparseable). -/
def init (e : InstanceTypeExtender R) (extensionList : Option (List extensionJson)) :
    InstanceTypeExtender R :=
  match extensionList with
  | none => e
  | some l => rangeExtensionList Compile e l

/-- Go `newInstanceTypeExtender`. -/
def newInstanceTypeExtender (extensionList : Option (List extensionJson)) :
    InstanceTypeExtender R :=
  init Compile { solvedMatches := ∅, extensions := [] } extensionList

end Construction


section Specification

variable {R : Type} (MatchString : R → String → Bool)

/-- A present candidate with an initialised capacity map. -/
def candidate (name : String) (capacity : GoMap Quantity) : Option InstanceType :=
  some { Name := name, Capacity := some capacity }

/-- The label gate of a rule against a present node pool: the `labelsMatch`
that the loop of `addExtension` ends with. -/
def labelGate (ext : extension R) (np : NodePool) : Bool :=
  match rangeLabels (some np) ext.requiredNPLabels.entries with
  | .ok labelsMatch => labelsMatch
  | .error _ => false

/-- The capacity overridden by the extended resources of a resolved outcome:
the entries of the rule, and the old entries under every other name; unchanged
for the outcome no-match. -/
def extended (m : Option (extension R)) (capacity : GoMap Quantity) : GoMap Quantity :=
  match m with
  | none => capacity
  | some ext => ext.extendedResources.toFinmap ∪ capacity

/-- The cache entry of a pair: `none` when the pair was never resolved,
`some none` for a cached no-match, `some (some ext)` for a cached rule. -/
def cached (e : InstanceTypeExtender R) (poolKey name : String) : Option (Option (extension R)) :=
  (e.solvedMatches.lookup poolKey).bind (Finmap.lookup name)

/-- The label gate in the words of the specification: every key of the
required labels of the rule exists in the labels of the node pool with an
identical value. -/
def specLabelGate (ext : extension R) (np : NodePool) : Bool :=
  ext.requiredNPLabels.entries.all fun en =>
    decide (np.Labels.bind (Finmap.lookup en.1) = some en.2)

/-- Both checks of the specification on one rule: the pattern matches the name
and every required label is held by the node pool. -/
def specPasses (np : NodePool) (name : String) (ext : extension R) : Bool :=
  MatchString ext.regex name && specLabelGate ext np

/-- Both checks of the scan on one rule: the pattern matches the name and the
label gate passes. -/
def passes (np : NodePool) (name : String) (ext : extension R) : Bool :=
  MatchString ext.regex name && labelGate ext np

/-- The outcome the engine uses for a pair: the cached one when there is one,
else the first rule in declaration order that passes both checks. -/
def outcome (e : InstanceTypeExtender R) (np : NodePool) (poolKey name : String) :
    Option (extension R) :=
  match cached e poolKey name with
  | some o => o
  | none => e.extensions.find? (passes MatchString np name)

/-- The engine after one candidate name was processed for a pool whose cache
segment is initialised: unchanged when the pair is cached, else with the
outcome of the scan stored. -/
def resolved (e : InstanceTypeExtender R) (np : NodePool) (poolKey name : String) :
    InstanceTypeExtender R :=
  match e.solvedMatches.lookup poolKey with
  | none => e
  | some seg =>
    match seg.lookup name with
    | some _ => e
    | none =>
      let m := e.extensions.find? (passes MatchString np name)
      { e with solvedMatches := e.solvedMatches.insert poolKey (seg.insert name m) }

/-- The engine after a list of candidate names was processed in order. -/
def resolvedAll (np : NodePool) (poolKey : String) :
    InstanceTypeExtender R → List String → InstanceTypeExtender R
  | e, [] => e
  | e, name :: rest => resolvedAll np poolKey (resolved MatchString e np poolKey name) rest

/-- The engine after `AddInstanceTypeExtensions` initialised the cache segment
of the pool when it was absent. -/
def prepared (e : InstanceTypeExtender R) (poolKey : String) : InstanceTypeExtender R :=
  if (e.solvedMatches.lookup poolKey).isNone then
    { e with solvedMatches := e.solvedMatches.insert poolKey ∅ }
  else e

/-- The engine after one batch call for a present node pool and present
candidates with the given names. -/
def served (e : InstanceTypeExtender R) (np : NodePool) (names : List String) :
    InstanceTypeExtender R :=
  if (goLen (e.solvedMatches.lookup (np.Name ++ "&" ++ np.Namespace)) == 0
        && e.extensions.length == 0) || names.length == 0 then e
  else resolvedAll MatchString np (np.Name ++ "&" ++ np.Namespace)
    (prepared e (np.Name ++ "&" ++ np.Namespace)) names

/-- A sequence of batch calls on one engine, each call with its candidate list
and node pool: the final engine and the candidate lists as the calls left
them. -/
def callSequence (e : InstanceTypeExtender R) :
    List (List (Option InstanceType) × Option NodePool) →
    Except Panic (InstanceTypeExtender R × List (List (Option InstanceType)))
  | [] => .ok (e, [])
  | (its, nodePool) :: rest =>
    match AddInstanceTypeExtensions MatchString e its nodePool with
    | .error p => .error p
    | .ok (e1, its1) =>
      match callSequence e1 rest with
      | .error p => .error p
      | .ok (e2, out) => .ok (e2, its1 :: out)

/-- The cache-free engine of the refinement claim, on one candidate of one
call: it rescans the rule list for the first rule whose pattern matches the
name and whose label gate passes against the pool, and overrides the capacity
by the resources of that rule; without such a rule the candidate is
unchanged. -/
def cacheFree (rules : List (extension R)) (np : NodePool) (c : String × GoMap Quantity) :
    Option InstanceType :=
  match rules.find? (fun r => MatchString r.regex c.1 && labelGate r np) with
  | some r => candidate c.1 (r.extendedResources.toFinmap ∪ c.2)
  | none => candidate c.1 c.2

end Specification

section Scenarios

/-- Whether the characters `p` are the leading characters of `s`. -/
def charsLead : List Char → List Char → Bool
  | [], _ => true
  | _ :: _, [] => false
  | a :: p, b :: s => a == b && charsLead p s

/-- Whether the characters `p` occur somewhere in `s`. -/
def charsOccur (p : List Char) : List Char → Bool
  | [] => p.isEmpty
  | b :: s => charsLead p (b :: s) || charsOccur p s

/-- Modelled from the spec: `(*regexp.Regexp).MatchString` of the Go standard
library, which is not part of the sources, on the patterns of the scenarios.
The specification says that a compiled pattern "matches as a substring anywhere
within instanceTypeName (not anchored to the whole string)": literal characters
match anywhere in the name, and after a leading `^` they match at the start of
the name.  The pattern is kept as its source text. -/
def literalMatchString (pattern : String) (name : String) : Bool :=
  match pattern.data with
  | '^' :: p => charsLead p name.data
  | p => charsOccur p name.data

/-- A node pool `default` without labels. -/
def poolDefault : NodePool := { Name := "default", Namespace := "", Labels := none }

/-- A rule for names that start with `g4dn`, gated on the label `zone`. -/
def ruleZoned : extension String :=
  { requiredNPLabels := AList.singleton "zone" "us-east-1a",
    regex := "^g4dn",
    extendedResources := AList.singleton "vendor.com/fpga" 8 }

/-- The rule of the scenario "match": pattern `^g4dn`, no required labels,
`vendor.com/fpga` = 2. -/
def ruleFpga : extension String :=
  { requiredNPLabels := ∅,
    regex := "^g4dn",
    extendedResources := AList.singleton "vendor.com/fpga" 2 }

/-- A rule that sets `nvidia.com/gpu` = 4 on names containing `p3`. -/
def ruleGpu : extension String :=
  { requiredNPLabels := ∅,
    regex := "p3",
    extendedResources := AList.singleton "nvidia.com/gpu" 4 }

/-- A rule that sets `example.com/dev` = 1 on names containing `m5`. -/
def ruleM5 : extension String :=
  { requiredNPLabels := ∅,
    regex := "m5",
    extendedResources := AList.singleton "example.com/dev" 1 }

/-- An engine without rules and without cache entries. -/
def engineEmpty : InstanceTypeExtender String := { solvedMatches := ∅, extensions := [] }

/-- An engine with the rules `ruleZoned`, `ruleFpga` whose cache segment for
the pool `default` is initialised and empty. -/
def engineTwoRules : InstanceTypeExtender String :=
  { solvedMatches := Finmap.singleton "default&" ∅, extensions := [ruleZoned, ruleFpga] }

/-- The engine `engineEmpty` after the rule `ruleM5` was added. -/
def engineOnlyM5 : InstanceTypeExtender String := { solvedMatches := ∅, extensions := [ruleM5] }

/-- An engine with the only rule `ruleZoned` whose cache segment for the pool
`default` is initialised and empty. -/
def engineZoned : InstanceTypeExtender String :=
  { solvedMatches := Finmap.singleton "default&" ∅, extensions := [ruleZoned] }

/-- The engine of the scenario "match": the only rule `ruleFpga`, empty
cache. -/
def engineFpga : InstanceTypeExtender String := { solvedMatches := ∅, extensions := [ruleFpga] }

/-- A pattern compiler that accepts every pattern and keeps its source text. -/
def compileAny (pattern : String) : Option String := some pattern

/-- A rule for names that start with `g4dn` that requires the label `zone`
with the empty string as value. -/
def ruleEmptyZone : extension String :=
  { requiredNPLabels := AList.singleton "zone" "",
    regex := "^g4dn",
    extendedResources := AList.singleton "vendor.com/fpga" 8 }

/-- An engine with the rules `ruleEmptyZone`, `ruleFpga` whose cache segment
for the pool `default` is initialised and empty. -/
def engineEmptyZone : InstanceTypeExtender String :=
  { solvedMatches := Finmap.singleton "default&" ∅, extensions := [ruleEmptyZone, ruleFpga] }

/-- An engine with the only rule `ruleEmptyZone` whose cache segment for the
pool `default` is initialised and empty. -/
def engineEmptyZoneOnly : InstanceTypeExtender String :=
  { solvedMatches := Finmap.singleton "default&" ∅, extensions := [ruleEmptyZone] }

/-- The engine as constructed with the rules `ruleEmptyZone`, `ruleFpga`: empty
cache. -/
def engineEmptyZoneFresh : InstanceTypeExtender String :=
  { solvedMatches := ∅, extensions := [ruleEmptyZone, ruleFpga] }

/-- The node pool `default` with the label `zone` = `us-east-1a`. -/
def poolDefaultEast : NodePool :=
  { Name := "default", Namespace := "", Labels := some (Finmap.singleton "zone" "us-east-1a") }

/-- The engine as constructed with the rules `ruleZoned`, `ruleFpga`: empty
cache. -/
def engineTwoRulesFresh : InstanceTypeExtender String :=
  { solvedMatches := ∅, extensions := [ruleZoned, ruleFpga] }

/-- A node pool `gpu` without labels. -/
def poolGpu : NodePool := { Name := "gpu", Namespace := "", Labels := none }

/-- An engine with a cached no-match for `m5.large` in the pool `default`. -/
def engineCachedNoMatch : InstanceTypeExtender String :=
  { solvedMatches := Finmap.singleton "default&" (Finmap.singleton "m5.large" none),
    extensions := [ruleM5] }

/-- The engine with the only rule `ruleGpu` (pattern `p3`, no required labels)
and an empty cache. -/
def engineGpu : InstanceTypeExtender String := { solvedMatches := ∅, extensions := [ruleGpu] }

/-- A node pool whose name holds the separator of `getKey`. -/
def poolAmpName : NodePool := { Name := "a&b", Namespace := "", Labels := none }

/-- A node pool whose namespace holds the separator of `getKey`. -/
def poolAmpNamespace : NodePool := { Name := "a", Namespace := "b&", Labels := none }

/-- A pattern compiler for the scenarios: it accepts the patterns that
`literalMatchString` reads, letters and digits after an optional leading `^`,
and rejects every other pattern, such as the unbalanced `(`. -/
def compileLiteral (pattern : String) : Option String :=
  match pattern.data with
  | '^' :: p => if p.all Char.isAlphanum then some pattern else none
  | p => if p.all Char.isAlphanum then some pattern else none

/-- A configuration of three raw rules, the second with a pattern that does not
compile. -/
def specsWithInvalid : List extensionJson :=
  [ { InstanceNameRegex := "^g4dn",
      ExtendedResources := AList.singleton "vendor.com/fpga" 2,
      RequiredNodePoolLabels := ∅ },
    { InstanceNameRegex := "(",
      ExtendedResources := AList.singleton "example.com/dev" 1,
      RequiredNodePoolLabels := ∅ },
    { InstanceNameRegex := "p3",
      ExtendedResources := AList.singleton "nvidia.com/gpu" 4,
      RequiredNodePoolLabels := ∅ } ]

end Scenarios

section Lemmas

variable {R : Type} (MatchString : R → String → Bool)

theorem rangeLabels_some (np : NodePool) (l : List (Sigma fun _ : String => String)) :
    rangeLabels (some np) l = .ok (l.all fun en => goIndex np.Labels en.1 == en.2) := by
  induction l with
  | nil => rfl
  | cons en rest ih =>
    obtain ⟨k, v⟩ := en
    by_cases h : goIndex np.Labels k = v
    · simp [rangeLabels, h, ih]
    · simp [rangeLabels, h]

theorem labelGate_eq_all (ext : extension R) (np : NodePool) :
    labelGate ext np
      = ext.requiredNPLabels.entries.all fun en => goIndex np.Labels en.1 == en.2 := by
  simp [labelGate, rangeLabels_some]

theorem labelGate_iff (ext : extension R) (np : NodePool) :
    labelGate ext np = true
      ↔ ∀ k v, ext.requiredNPLabels.lookup k = some v → goIndex np.Labels k = v := by
  rw [labelGate_eq_all, List.all_eq_true]
  constructor
  · intro h k v hk
    have hmem : (⟨k, v⟩ : Sigma fun _ : String => String) ∈ ext.requiredNPLabels.entries :=
      AList.mem_lookup_iff.1 (by simp [hk])
    simpa using h _ hmem
  · rintro h ⟨k, v⟩ hmem
    have hk : ext.requiredNPLabels.lookup k = some v := by
      have := AList.mem_lookup_iff.2 hmem
      simpa using this
    simpa using h k v hk

theorem rangeResources_candidate (name : String) (l : List (Sigma fun _ : String => Quantity))
    (cap : GoMap Quantity) :
    rangeResources (candidate name cap) l
      = .ok (candidate name (l.foldl (fun c en => c.insert en.1 en.2) cap)) := by
  induction l generalizing cap with
  | nil => rfl
  | cons en rest ih =>
    obtain ⟨k, v⟩ := en
    have := ih (cap.insert k v)
    simpa [rangeResources, setCapacity, candidate] using this

theorem lookup_foldl_insert {V : Type} (l : List (Sigma fun _ : String => V)) (hl : l.NodupKeys)
    (cap : GoMap V) (k : String) :
    (l.foldl (fun c en => c.insert en.1 en.2) cap).lookup k
      = (l.dlookup k).orElse fun _ => cap.lookup k := by
  induction l generalizing cap with
  | nil => simp
  | cons en rest ih =>
    obtain ⟨a, b⟩ := en
    rw [List.nodupKeys_cons] at hl
    rw [List.foldl_cons, ih hl.2]
    by_cases hka : k = a
    · subst hka
      have : rest.dlookup k = none := List.dlookup_eq_none.2 hl.1
      simp [this, Finmap.lookup_insert]
    · have hne : a ≠ k := fun h => hka h.symm
      rw [List.dlookup_cons_ne rest (⟨a, b⟩ : Sigma fun _ : String => V) hka,
        Finmap.lookup_insert_of_ne _ hka]

theorem foldl_insert_eq_union {V : Type} (s : RangeMap V) (cap : GoMap V) :
    s.entries.foldl (fun c en => c.insert en.1 en.2) cap = s.toFinmap ∪ cap := by
  apply Finmap.ext_lookup
  intro k
  rw [lookup_foldl_insert _ s.nodupKeys]
  by_cases hk : k ∈ s.toFinmap
  · rw [Finmap.lookup_union_left hk, Finmap.lookup_toFinmap]
    obtain ⟨b, hb⟩ := Finmap.mem_iff.1 hk
    rw [Finmap.lookup_toFinmap] at hb
    have : s.entries.dlookup k = some b := hb
    simp [this, hb]
  · rw [Finmap.lookup_union_right hk]
    have hb : s.lookup k = none := by
      rw [← Finmap.lookup_toFinmap]; exact Finmap.lookup_eq_none.2 hk
    have : s.entries.dlookup k = none := hb
    simp [this]

theorem addExtendedResources_candidate (name : String) (cap : GoMap Quantity)
    (ext : extension R) :
    addExtendedResources (candidate name cap) ext
      = .ok (candidate name (ext.extendedResources.toFinmap ∪ cap)) := by
  rw [addExtendedResources, rangeResources_candidate, foldl_insert_eq_union]

theorem addExtension_candidate (name : String) (cap : GoMap Quantity) (ext : extension R)
    (np : NodePool) :
    addExtension (candidate name cap) ext (some np)
      = .ok (candidate name (if labelGate ext np then ext.extendedResources.toFinmap ∪ cap
              else cap), labelGate ext np) := by
  unfold addExtension
  rw [addExtendedResources_candidate, labelGate_eq_all, rangeLabels_some]
  cases ext.requiredNPLabels.entries.all fun en => goIndex np.Labels en.1 == en.2 <;> rfl

theorem scanExtensions_candidate (name n : String) (cap : GoMap Quantity) (np : NodePool)
    (rules : List (extension R)) :
    scanExtensions MatchString name (candidate n cap) (some np) rules
      = .ok (candidate n (extended (rules.find? (passes MatchString np name)) cap),
             rules.find? (passes MatchString np name)) := by
  induction rules with
  | nil => rfl
  | cons ext rest ih =>
    unfold scanExtensions
    by_cases hm : MatchString ext.regex name = true
    · by_cases hg : labelGate ext np = true
      · simp [hm, hg, addExtension_candidate, passes, List.find?, extended]
      · simp only [Bool.not_eq_true] at hg
        simp [hm, hg, addExtension_candidate, passes, List.find?, ih]
    · simp only [Bool.not_eq_true] at hm
      simp [hm, passes, List.find?, ih]

theorem addInstanceTypeExtensions_candidate (e : InstanceTypeExtender R) (poolKey : String)
    (seg : GoMap (Option (extension R))) (hseg : e.solvedMatches.lookup poolKey = some seg)
    (name : String) (cap : GoMap Quantity) (np : NodePool) :
    addInstanceTypeExtensions MatchString e poolKey (candidate name cap) (some np)
      = .ok (resolved MatchString e np poolKey name,
             candidate name (extended (outcome MatchString e np poolKey name) cap)) := by
  unfold addInstanceTypeExtensions
  simp only [candidate, hseg, Option.some_bind, outcome, cached, resolved]
  cases hl : Finmap.lookup name seg with
  | none =>
    have := scanExtensions_candidate MatchString name name cap np e.extensions
    simp only [candidate] at this
    simp [this]
  | some o =>
    cases o with
    | none => simp [extended]
    | some ext =>
      have := addExtendedResources_candidate name cap ext
      simp only [candidate] at this
      simp [this, extended]

theorem resolved_absent (e : InstanceTypeExtender R) (np : NodePool) (poolKey name : String)
    (hs : e.solvedMatches.lookup poolKey = none) :
    resolved MatchString e np poolKey name = e := by
  simp [resolved, hs]

theorem resolved_hit (e : InstanceTypeExtender R) (np : NodePool) (poolKey name : String)
    (seg : GoMap (Option (extension R))) (hs : e.solvedMatches.lookup poolKey = some seg)
    (o : Option (extension R)) (hl : seg.lookup name = some o) :
    resolved MatchString e np poolKey name = e := by
  simp [resolved, hs, hl]

theorem resolved_miss (e : InstanceTypeExtender R) (np : NodePool) (poolKey name : String)
    (seg : GoMap (Option (extension R))) (hs : e.solvedMatches.lookup poolKey = some seg)
    (hl : seg.lookup name = none) :
    resolved MatchString e np poolKey name
      = { e with solvedMatches := (e.solvedMatches.insert poolKey
            (seg.insert name (e.extensions.find? (passes MatchString np name)))) } := by
  simp [resolved, hs, hl]

theorem resolved_extensions (e : InstanceTypeExtender R) (np : NodePool)
    (poolKey name : String) :
    (resolved MatchString e np poolKey name).extensions = e.extensions := by
  cases hs : e.solvedMatches.lookup poolKey with
  | none => rw [resolved_absent MatchString e np poolKey name hs]
  | some seg =>
    cases hl : seg.lookup name with
    | some o => rw [resolved_hit MatchString e np poolKey name seg hs o hl]
    | none => rw [resolved_miss MatchString e np poolKey name seg hs hl]

theorem cached_resolved (e : InstanceTypeExtender R) (np : NodePool) (poolKey name : String)
    (hseg : (e.solvedMatches.lookup poolKey).isSome = true) (n : String) :
    cached (resolved MatchString e np poolKey name) poolKey n
      = if n = name then some (outcome MatchString e np poolKey name)
        else cached e poolKey n := by
  obtain ⟨seg, hs⟩ := Option.isSome_iff_exists.1 hseg
  cases hl : seg.lookup name with
  | some o =>
    rw [resolved_hit MatchString e np poolKey name seg hs o hl]
    by_cases hn : n = name
    · subst hn
      simp [outcome, cached, hs, hl]
    · simp [hn]
  | none =>
    rw [resolved_miss MatchString e np poolKey name seg hs hl]
    by_cases hn : n = name
    · subst hn
      simp [outcome, cached, hs, hl, Finmap.lookup_insert]
    · simp [hn, cached, hs, Finmap.lookup_insert, Finmap.lookup_insert_of_ne _ hn]

theorem cached_resolved_other (e : InstanceTypeExtender R) (np : NodePool)
    (poolKey name : String) (k n : String) (hk : k ≠ poolKey) :
    cached (resolved MatchString e np poolKey name) k n = cached e k n := by
  cases hs : e.solvedMatches.lookup poolKey with
  | none => rw [resolved_absent MatchString e np poolKey name hs]
  | some seg =>
    cases hl : seg.lookup name with
    | some o => rw [resolved_hit MatchString e np poolKey name seg hs o hl]
    | none =>
      rw [resolved_miss MatchString e np poolKey name seg hs hl]
      simp [cached, Finmap.lookup_insert_of_ne _ hk]

theorem resolved_isSome (e : InstanceTypeExtender R) (np : NodePool) (poolKey name : String)
    (hseg : (e.solvedMatches.lookup poolKey).isSome = true) :
    ((resolved MatchString e np poolKey name).solvedMatches.lookup poolKey).isSome = true := by
  obtain ⟨seg, hs⟩ := Option.isSome_iff_exists.1 hseg
  cases hl : seg.lookup name with
  | some o => rw [resolved_hit MatchString e np poolKey name seg hs o hl]; exact hseg
  | none =>
    rw [resolved_miss MatchString e np poolKey name seg hs hl]
    simp [Finmap.lookup_insert]

theorem outcome_resolved (e : InstanceTypeExtender R) (np : NodePool) (poolKey name : String)
    (hseg : (e.solvedMatches.lookup poolKey).isSome = true) (n : String) :
    outcome MatchString (resolved MatchString e np poolKey name) np poolKey n
      = outcome MatchString e np poolKey n := by
  have hc := cached_resolved MatchString e np poolKey name hseg n
  unfold outcome at hc ⊢
  rw [hc, resolved_extensions]
  by_cases hn : n = name
  · simp [hn]
  · simp [hn]

theorem resolved_of_cached (e : InstanceTypeExtender R) (np : NodePool) (poolKey name : String)
    (h : (cached e poolKey name).isSome = true) :
    resolved MatchString e np poolKey name = e := by
  cases hs : e.solvedMatches.lookup poolKey with
  | none => rw [resolved_absent MatchString e np poolKey name hs]
  | some seg =>
    cases hl : seg.lookup name with
    | some o => rw [resolved_hit MatchString e np poolKey name seg hs o hl]
    | none => simp [cached, hs, hl] at h

theorem cached_resolved_of_cached (e : InstanceTypeExtender R) (np : NodePool)
    (poolKey name n : String) (o : Option (extension R)) (h : cached e poolKey n = some o) :
    cached (resolved MatchString e np poolKey name) poolKey n = some o := by
  by_cases hn : name = n
  · subst hn
    rw [resolved_of_cached MatchString e np poolKey name (by simp [h])]
    exact h
  · have hseg : (e.solvedMatches.lookup poolKey).isSome = true := by
      cases hs : e.solvedMatches.lookup poolKey with
      | none => simp [cached, hs] at h
      | some seg => rfl
    rw [cached_resolved MatchString e np poolKey name hseg n, if_neg (fun h' => hn h'.symm)]
    exact h

theorem resolvedAll_extensions (np : NodePool) (poolKey : String) (names : List String)
    (e : InstanceTypeExtender R) :
    (resolvedAll MatchString np poolKey e names).extensions = e.extensions := by
  induction names generalizing e with
  | nil => rfl
  | cons a rest ih => rw [resolvedAll, ih, resolved_extensions]

theorem resolvedAll_isSome (np : NodePool) (poolKey : String) (names : List String)
    (e : InstanceTypeExtender R) (hseg : (e.solvedMatches.lookup poolKey).isSome = true) :
    ((resolvedAll MatchString np poolKey e names).solvedMatches.lookup poolKey).isSome
      = true := by
  induction names generalizing e with
  | nil => exact hseg
  | cons a rest ih => exact ih _ (resolved_isSome MatchString e np poolKey a hseg)

theorem outcome_resolvedAll (np : NodePool) (poolKey : String) (names : List String)
    (e : InstanceTypeExtender R) (hseg : (e.solvedMatches.lookup poolKey).isSome = true)
    (n : String) :
    outcome MatchString (resolvedAll MatchString np poolKey e names) np poolKey n
      = outcome MatchString e np poolKey n := by
  induction names generalizing e with
  | nil => rfl
  | cons a rest ih =>
    rw [resolvedAll, ih _ (resolved_isSome MatchString e np poolKey a hseg),
      outcome_resolved MatchString e np poolKey a hseg]

theorem cached_resolvedAll_of_cached (np : NodePool) (poolKey : String) (names : List String)
    (e : InstanceTypeExtender R) (n : String) (o : Option (extension R))
    (h : cached e poolKey n = some o) :
    cached (resolvedAll MatchString np poolKey e names) poolKey n = some o := by
  induction names generalizing e with
  | nil => exact h
  | cons a rest ih => exact ih _ (cached_resolved_of_cached MatchString e np poolKey a n o h)

theorem cached_resolvedAll_other (np : NodePool) (poolKey : String) (names : List String)
    (e : InstanceTypeExtender R) (k n : String) (hk : k ≠ poolKey) :
    cached (resolvedAll MatchString np poolKey e names) k n = cached e k n := by
  induction names generalizing e with
  | nil => rfl
  | cons a rest ih => rw [resolvedAll, ih, cached_resolved_other MatchString e np poolKey a k n hk]

theorem cached_resolvedAll_mem (np : NodePool) (poolKey : String) (names : List String)
    (e : InstanceTypeExtender R) (hseg : (e.solvedMatches.lookup poolKey).isSome = true)
    (n : String) (hn : n ∈ names) :
    cached (resolvedAll MatchString np poolKey e names) poolKey n
      = some (outcome MatchString e np poolKey n) := by
  induction names generalizing e with
  | nil => cases hn
  | cons a rest ih =>
    rw [resolvedAll]
    by_cases ha : n = a
    · subst ha
      apply cached_resolvedAll_of_cached
      rw [cached_resolved MatchString e np poolKey n hseg n, if_pos rfl]
    · have hmem : n ∈ rest := by
        rcases List.mem_cons.1 hn with h | h
        · exact absurd h ha
        · exact h
      rw [ih _ (resolved_isSome MatchString e np poolKey a hseg) hmem,
        outcome_resolved MatchString e np poolKey a hseg]

theorem resolvedAll_of_cached (np : NodePool) (poolKey : String) (names : List String)
    (e : InstanceTypeExtender R) (h : ∀ n ∈ names, (cached e poolKey n).isSome = true) :
    resolvedAll MatchString np poolKey e names = e := by
  induction names with
  | nil => rfl
  | cons a rest ih =>
    rw [resolvedAll, resolved_of_cached MatchString e np poolKey a (h a (by simp))]
    exact ih fun n hn => h n (List.mem_cons_of_mem _ hn)

theorem rangeInstanceTypes_candidates (poolKey : String) (np : NodePool)
    (cs : List (String × GoMap Quantity)) (e : InstanceTypeExtender R)
    (hseg : (e.solvedMatches.lookup poolKey).isSome = true) :
    rangeInstanceTypes MatchString poolKey (some np) e (cs.map fun c => candidate c.1 c.2)
      = .ok (resolvedAll MatchString np poolKey e (cs.map Prod.fst),
             cs.map fun c =>
               candidate c.1 (extended (outcome MatchString e np poolKey c.1) c.2)) := by
  induction cs generalizing e with
  | nil => rfl
  | cons c rest ih =>
    obtain ⟨seg, hs⟩ := Option.isSome_iff_exists.1 hseg
    simp only [List.map_cons, rangeInstanceTypes,
      addInstanceTypeExtensions_candidate MatchString e poolKey seg hs,
      ih _ (resolved_isSome MatchString e np poolKey c.1 hseg), resolvedAll,
      outcome_resolved MatchString e np poolKey c.1 hseg]

theorem prepared_isSome (e : InstanceTypeExtender R) (poolKey : String) :
    ((prepared e poolKey).solvedMatches.lookup poolKey).isSome = true := by
  unfold prepared
  cases hs : e.solvedMatches.lookup poolKey with
  | none => simp [Finmap.lookup_insert]
  | some seg => simp [hs]

theorem prepared_of_isSome (e : InstanceTypeExtender R) (poolKey : String)
    (hseg : (e.solvedMatches.lookup poolKey).isSome = true) : prepared e poolKey = e := by
  obtain ⟨seg, hs⟩ := Option.isSome_iff_exists.1 hseg
  simp [prepared, hs]

theorem prepared_extensions (e : InstanceTypeExtender R) (poolKey : String) :
    (prepared e poolKey).extensions = e.extensions := by
  unfold prepared
  split <;> rfl

theorem cached_prepared (e : InstanceTypeExtender R) (poolKey k n : String) :
    cached (prepared e poolKey) k n = cached e k n := by
  cases hs : e.solvedMatches.lookup poolKey with
  | some seg => rw [prepared_of_isSome e poolKey (by simp [hs])]
  | none =>
    by_cases hk : k = poolKey
    · subst hk
      simp [prepared, cached, hs, Finmap.lookup_insert, Finmap.lookup_empty]
    · simp [prepared, cached, hs, Finmap.lookup_insert_of_ne _ hk]

theorem outcome_prepared (e : InstanceTypeExtender R) (np : NodePool) (poolKey n : String) :
    outcome MatchString (prepared e poolKey) np poolKey n = outcome MatchString e np poolKey n := by
  unfold outcome
  rw [cached_prepared, prepared_extensions]

theorem cached_of_goLen_eq_zero (e : InstanceTypeExtender R) (poolKey n : String)
    (h : goLen (e.solvedMatches.lookup poolKey) = 0) : cached e poolKey n = none := by
  unfold cached
  cases hs : e.solvedMatches.lookup poolKey with
  | none => rfl
  | some seg =>
    rw [hs] at h
    have hk : seg.keys = ∅ := Finset.card_eq_zero.1 h
    have : n ∉ seg := by
      rw [← Finmap.mem_keys, hk]
      exact Finset.not_mem_empty n
    simpa using Finmap.lookup_eq_none.2 this

theorem goLen_pos_of_cached (e : InstanceTypeExtender R) (poolKey n : String)
    (h : (cached e poolKey n).isSome = true) : goLen (e.solvedMatches.lookup poolKey) ≠ 0 := by
  intro h0
  rw [cached_of_goLen_eq_zero e poolKey n h0] at h
  cases h

/-- The batch entry point on a present node pool and present candidates with
initialised capacity maps: it returns, every candidate gets the capacity
overridden by the outcome of its pair, and the engine is `served`. -/
theorem AddInstanceTypeExtensions_candidates (e : InstanceTypeExtender R) (np : NodePool)
    (cs : List (String × GoMap Quantity)) :
    AddInstanceTypeExtensions MatchString e (cs.map fun c => candidate c.1 c.2) (some np)
      = .ok (served MatchString e np (cs.map Prod.fst),
             cs.map fun c => candidate c.1
               (extended (outcome MatchString e np (np.Name ++ "&" ++ np.Namespace) c.1) c.2)) := by
  unfold AddInstanceTypeExtensions served
  simp only [getKey, List.length_map, Option.isNone_some, Bool.or_false]
  by_cases hfast : ((goLen (e.solvedMatches.lookup (np.Name ++ "&" ++ np.Namespace)) == 0
      && e.extensions.length == 0) || cs.length == 0) = true
  · rw [if_pos hfast, if_pos hfast]
    congr 2
    apply List.map_congr_left
    intro c hc
    have hfast1 := hfast
    rw [Bool.or_eq_true] at hfast1
    rcases hfast1 with h | h
    · simp only [Bool.and_eq_true, beq_iff_eq] at h
      have hnil : e.extensions = [] := List.length_eq_zero.1 h.2
      simp [outcome, cached_of_goLen_eq_zero e _ c.1 h.1, hnil, extended]
    · have : cs = [] := List.length_eq_zero.1 (by simpa using h)
      subst this
      cases hc
  · rw [if_neg hfast, if_neg hfast]
    have := rangeInstanceTypes_candidates MatchString (np.Name ++ "&" ++ np.Namespace) np cs
      (prepared e (np.Name ++ "&" ++ np.Namespace)) (prepared_isSome e _)
    simp only [outcome_prepared] at this
    exact this

theorem passes_eq_true_iff (np : NodePool) (name : String) (x : extension R) :
    passes MatchString np name x = true
      ↔ (MatchString x.regex name = true ∧ labelGate x np = true) := by
  simp [passes]

theorem not_passes_iff (np : NodePool) (name : String) (x : extension R) :
    (!passes MatchString np name x) = true
      ↔ ¬ (MatchString x.regex name = true ∧ labelGate x np = true) := by
  rw [← passes_eq_true_iff]
  simp

theorem addInstanceTypeExtensions_cached (e : InstanceTypeExtender R) (poolKey name : String)
    (o : Option (extension R)) (hc : cached e poolKey name = some o)
    (cap : GoMap Quantity) (nodePool : Option NodePool) :
    addInstanceTypeExtensions MatchString e poolKey (candidate name cap) nodePool
      = .ok (e, candidate name (extended o cap)) := by
  unfold cached at hc
  unfold addInstanceTypeExtensions
  simp only [candidate, hc]
  cases o with
  | none => rfl
  | some ext =>
    have := addExtendedResources_candidate name cap ext
    simp only [candidate] at this
    simp [this, extended]

theorem served_extensions (e : InstanceTypeExtender R) (np : NodePool) (names : List String) :
    (served MatchString e np names).extensions = e.extensions := by
  unfold served
  split
  · rfl
  · rw [resolvedAll_extensions, prepared_extensions]

theorem cached_served_of_cached (e : InstanceTypeExtender R) (np : NodePool)
    (names : List String) (k n : String) (o : Option (extension R))
    (h : cached e k n = some o) : cached (served MatchString e np names) k n = some o := by
  unfold served
  split
  · exact h
  · by_cases hk : k = np.Name ++ "&" ++ np.Namespace
    · subst hk
      apply cached_resolvedAll_of_cached
      rw [cached_prepared]
      exact h
    · rw [cached_resolvedAll_other MatchString np _ names _ k n hk, cached_prepared]
      exact h

theorem AddInstanceTypeExtensions_fast (e : InstanceTypeExtender R) (np : NodePool)
    (hrules : e.extensions = [])
    (hcache : goLen (e.solvedMatches.lookup (np.Name ++ "&" ++ np.Namespace)) = 0)
    (its : List (Option InstanceType)) :
    AddInstanceTypeExtensions MatchString e its (some np) = .ok (e, its) := by
  simp [AddInstanceTypeExtensions, getKey, hrules, hcache]

theorem cached_served_mem (e : InstanceTypeExtender R) (np : NodePool) (names : List String)
    (hslow : ((goLen (e.solvedMatches.lookup (np.Name ++ "&" ++ np.Namespace)) == 0
      && e.extensions.length == 0) || names.length == 0) = false)
    (n : String) (hn : n ∈ names) :
    cached (served MatchString e np names) (np.Name ++ "&" ++ np.Namespace) n
      = some (outcome MatchString e np (np.Name ++ "&" ++ np.Namespace) n) := by
  unfold served
  rw [hslow]
  simp only [Bool.false_eq_true, if_false]
  rw [cached_resolvedAll_mem MatchString np _ names _ (prepared_isSome e _) n hn,
    outcome_prepared]

theorem outcome_of_goLen_eq_zero (e : InstanceTypeExtender R) (np : NodePool)
    (poolKey n : String) (h : goLen (e.solvedMatches.lookup poolKey) = 0) :
    outcome MatchString e np poolKey n = e.extensions.find? (passes MatchString np n) := by
  simp [outcome, cached_of_goLen_eq_zero e poolKey n h]

theorem outcome_served (e : InstanceTypeExtender R) (np : NodePool) (names : List String)
    (n : String) :
    outcome MatchString (served MatchString e np names) np (np.Name ++ "&" ++ np.Namespace) n
      = outcome MatchString e np (np.Name ++ "&" ++ np.Namespace) n := by
  unfold served
  split
  · rfl
  · rw [outcome_resolvedAll MatchString np _ names _ (prepared_isSome e _), outcome_prepared]

theorem served_served (e : InstanceTypeExtender R) (np : NodePool) (names : List String) :
    served MatchString (served MatchString e np names) np names
      = served MatchString e np names := by
  by_cases hfast : ((goLen (e.solvedMatches.lookup (np.Name ++ "&" ++ np.Namespace)) == 0
      && e.extensions.length == 0) || names.length == 0) = true
  · have h1 : served MatchString e np names = e := by
      unfold served
      rw [if_pos hfast]
    rw [h1, h1]
  · have h1 : served MatchString e np names
        = resolvedAll MatchString np (np.Name ++ "&" ++ np.Namespace)
            (prepared e (np.Name ++ "&" ++ np.Namespace)) names := by
      unfold served
      rw [if_neg hfast]
    have hsome := resolvedAll_isSome MatchString np (np.Name ++ "&" ++ np.Namespace) names
      (prepared e (np.Name ++ "&" ++ np.Namespace)) (prepared_isSome e _)
    rw [← h1] at hsome
    have hall : ∀ n ∈ names,
        (cached (served MatchString e np names) (np.Name ++ "&" ++ np.Namespace) n).isSome
          = true := by
      intro n hn
      rw [h1, cached_resolvedAll_mem MatchString np _ names _ (prepared_isSome e _) n hn]
      rfl
    generalize served MatchString e np names = e1 at hsome hall
    unfold served
    split
    · rfl
    · rw [prepared_of_isSome e1 _ hsome]
      exact resolvedAll_of_cached MatchString np _ names e1 hall

theorem extended_extended (o : Option (extension R)) (cap : GoMap Quantity) :
    extended o (extended o cap) = extended o cap := by
  cases o with
  | none => rfl
  | some ext =>
    simp only [extended]
    apply Finmap.ext_lookup
    intro k
    by_cases hk : k ∈ ext.extendedResources.toFinmap
    · rw [Finmap.lookup_union_left hk, Finmap.lookup_union_left hk]
    · rw [Finmap.lookup_union_right hk]

theorem getKey_some (np : NodePool) : getKey (some np) = .ok (np.Name ++ "&" ++ np.Namespace) :=
  rfl

theorem rangeExtensionList_solvedMatches (Compile : String → Option R)
    (l : List extensionJson) (e : InstanceTypeExtender R) :
    (rangeExtensionList Compile e l).solvedMatches = e.solvedMatches := by
  induction l generalizing e with
  | nil => rfl
  | cons a rest ih =>
    unfold rangeExtensionList
    cases Compile a.InstanceNameRegex with
    | none => exact ih e
    | some regex => simp only [ih]

theorem newInstanceTypeExtender_solvedMatches (Compile : String → Option R)
    (extensionList : Option (List extensionJson)) :
    (newInstanceTypeExtender Compile extensionList).solvedMatches = ∅ := by
  cases extensionList with
  | none => rfl
  | some l =>
    simp only [newInstanceTypeExtender, init]
    rw [rangeExtensionList_solvedMatches]

theorem callSequence_inert (e : InstanceTypeExtender R) (hrules : e.extensions = [])
    (hcache : e.solvedMatches = ∅) (calls : List (List (Option InstanceType) × NodePool)) :
    callSequence MatchString e (calls.map fun c => (c.1, some c.2))
      = .ok (e, calls.map Prod.fst) := by
  induction calls with
  | nil => rfl
  | cons c rest ih =>
    have h0 : goLen (e.solvedMatches.lookup (c.2.Name ++ "&" ++ c.2.Namespace)) = 0 := by
      rw [hcache, Finmap.lookup_empty]
      rfl
    simp only [List.map_cons, callSequence,
      AddInstanceTypeExtensions_fast MatchString e c.2 hrules h0, ih]

theorem lookup_rangeQuantities (l : List (Sigma fun _ : String => Int)) (hl : l.NodupKeys)
    (resList : RangeMap Quantity) (key : String) :
    (rangeQuantities resList l).lookup key
      = (l.dlookup key).orElse fun _ => resList.lookup key := by
  induction l generalizing resList with
  | nil => simp [rangeQuantities]
  | cons en rest ih =>
    obtain ⟨a, b⟩ := en
    rw [List.nodupKeys_cons] at hl
    rw [rangeQuantities, ih hl.2]
    by_cases hka : key = a
    · subst hka
      have : rest.dlookup key = none := List.dlookup_eq_none.2 hl.1
      simp [this, AList.lookup_insert]
    · rw [List.dlookup_cons_ne rest (⟨a, b⟩ : Sigma fun _ : String => Int) hka,
        AList.lookup_insert_ne hka]

theorem rangeExtensionList_extensions (Compile : String → Option R)
    (l : List extensionJson) (e : InstanceTypeExtender R) :
    (rangeExtensionList Compile e l).extensions
      = e.extensions ++ l.filterMap fun s =>
          (Compile s.InstanceNameRegex).map fun regex =>
            { requiredNPLabels := s.RequiredNodePoolLabels,
              regex := regex,
              extendedResources := rangeQuantities ∅ s.ExtendedResources.entries } := by
  induction l generalizing e with
  | nil => simp [rangeExtensionList]
  | cons a rest ih =>
    unfold rangeExtensionList
    cases hc : Compile a.InstanceNameRegex with
    | none => simp [ih, List.filterMap_cons, hc]
    | some regex => simp [ih, List.filterMap_cons, hc]

theorem lookup_resolved_other (e : InstanceTypeExtender R) (np : NodePool)
    (poolKey name k : String) (hk : k ≠ poolKey) :
    (resolved MatchString e np poolKey name).solvedMatches.lookup k
      = e.solvedMatches.lookup k := by
  cases hs : e.solvedMatches.lookup poolKey with
  | none => rw [resolved_absent MatchString e np poolKey name hs]
  | some seg =>
    cases hl : seg.lookup name with
    | some o => rw [resolved_hit MatchString e np poolKey name seg hs o hl]
    | none =>
      rw [resolved_miss MatchString e np poolKey name seg hs hl]
      exact Finmap.lookup_insert_of_ne _ hk

theorem lookup_resolvedAll_other (np : NodePool) (poolKey : String) (names : List String)
    (e : InstanceTypeExtender R) (k : String) (hk : k ≠ poolKey) :
    (resolvedAll MatchString np poolKey e names).solvedMatches.lookup k
      = e.solvedMatches.lookup k := by
  induction names generalizing e with
  | nil => rfl
  | cons a rest ih => rw [resolvedAll, ih, lookup_resolved_other MatchString e np poolKey a k hk]

theorem lookup_prepared_other (e : InstanceTypeExtender R) (poolKey k : String)
    (hk : k ≠ poolKey) :
    (prepared e poolKey).solvedMatches.lookup k = e.solvedMatches.lookup k := by
  unfold prepared
  split
  · exact Finmap.lookup_insert_of_ne _ hk
  · rfl

theorem cached_resolvedAll (np : NodePool) (poolKey : String) (names : List String)
    (e : InstanceTypeExtender R) (hseg : (e.solvedMatches.lookup poolKey).isSome = true)
    (n : String) :
    cached (resolvedAll MatchString np poolKey e names) poolKey n
      = if n ∈ names then some (outcome MatchString e np poolKey n) else cached e poolKey n := by
  by_cases hn : n ∈ names
  · rw [if_pos hn]
    exact cached_resolvedAll_mem MatchString np poolKey names e hseg n hn
  · rw [if_neg hn]
    induction names generalizing e with
    | nil => rfl
    | cons a rest ih =>
      have hna : n ≠ a := fun h => hn (h ▸ List.mem_cons_self _ _)
      have hrest : n ∉ rest := fun h => hn (List.mem_cons_of_mem _ h)
      rw [resolvedAll, ih _ (resolved_isSome MatchString e np poolKey a hseg) hrest,
        cached_resolved MatchString e np poolKey a hseg n, if_neg hna]

theorem engine_ext (e1 e2 : InstanceTypeExtender R) (hx : e1.extensions = e2.extensions)
    (hs : ∀ k, (e1.solvedMatches.lookup k).isSome = (e2.solvedMatches.lookup k).isSome)
    (hc : ∀ k n, cached e1 k n = cached e2 k n) : e1 = e2 := by
  obtain ⟨sm1, x1⟩ := e1
  obtain ⟨sm2, x2⟩ := e2
  simp only at hx hs
  subst hx
  congr 1
  apply Finmap.ext_lookup
  intro k
  have hk := hs k
  have hck := hc k
  simp only [cached] at hck
  cases h1 : Finmap.lookup k sm1 with
  | none =>
    cases h2 : Finmap.lookup k sm2 with
    | none => rfl
    | some s2 => rw [h1, h2] at hk; cases hk
  | some s1 =>
    cases h2 : Finmap.lookup k sm2 with
    | none => rw [h1, h2] at hk; cases hk
    | some s2 =>
      rw [h1, h2] at hck
      have : s1 = s2 := Finmap.ext_lookup fun n => by simpa using hck n
      rw [this]

theorem resolvedAll_perm (np : NodePool) (poolKey : String) (names1 names2 : List String)
    (hperm : names1.Perm names2) (e : InstanceTypeExtender R)
    (hseg : (e.solvedMatches.lookup poolKey).isSome = true) :
    resolvedAll MatchString np poolKey e names1 = resolvedAll MatchString np poolKey e names2 := by
  apply engine_ext
  · rw [resolvedAll_extensions, resolvedAll_extensions]
  · intro k
    by_cases hk : k = poolKey
    · subst hk
      rw [resolvedAll_isSome MatchString np k names1 e hseg,
        resolvedAll_isSome MatchString np k names2 e hseg]
    · rw [lookup_resolvedAll_other MatchString np poolKey names1 e k hk,
        lookup_resolvedAll_other MatchString np poolKey names2 e k hk]
  · intro k n
    by_cases hk : k = poolKey
    · subst hk
      rw [cached_resolvedAll MatchString np k names1 e hseg,
        cached_resolvedAll MatchString np k names2 e hseg]
      simp only [hperm.mem_iff]
    · rw [cached_resolvedAll_other MatchString np poolKey names1 e k n hk,
        cached_resolvedAll_other MatchString np poolKey names2 e k n hk]

theorem served_perm (e : InstanceTypeExtender R) (np : NodePool) (names1 names2 : List String)
    (hperm : names1.Perm names2) :
    served MatchString e np names1 = served MatchString e np names2 := by
  unfold served
  rw [hperm.length_eq]
  split
  · rfl
  · exact resolvedAll_perm MatchString np _ names1 names2 hperm _ (prepared_isSome e _)

theorem resolvedAll_append (np : NodePool) (poolKey : String) (xs ys : List String)
    (e : InstanceTypeExtender R) :
    resolvedAll MatchString np poolKey e (xs ++ ys)
      = resolvedAll MatchString np poolKey (resolvedAll MatchString np poolKey e xs) ys := by
  induction xs generalizing e with
  | nil => rfl
  | cons a rest ih =>
    rw [List.cons_append, resolvedAll, resolvedAll, ih]

theorem served_of_fast (e : InstanceTypeExtender R) (np : NodePool) (names : List String)
    (hrules : e.extensions = [])
    (hcache : goLen (e.solvedMatches.lookup (np.Name ++ "&" ++ np.Namespace)) = 0) :
    served MatchString e np names = e := by
  simp [served, hrules, hcache]

theorem served_nil (e : InstanceTypeExtender R) (np : NodePool) :
    served MatchString e np [] = e := by
  simp [served]

theorem served_of_slow (e : InstanceTypeExtender R) (np : NodePool) (names : List String)
    (hslow : ¬ (e.extensions = []
      ∧ goLen (e.solvedMatches.lookup (np.Name ++ "&" ++ np.Namespace)) = 0))
    (hne : names ≠ []) :
    served MatchString e np names
      = resolvedAll MatchString np (np.Name ++ "&" ++ np.Namespace)
          (prepared e (np.Name ++ "&" ++ np.Namespace)) names := by
  unfold served
  rw [if_neg]
  intro h
  rw [Bool.or_eq_true] at h
  rcases h with h | h
  · simp only [Bool.and_eq_true, beq_iff_eq] at h
    exact hslow ⟨List.length_eq_zero.1 h.2, h.1⟩
  · exact hne (List.length_eq_zero.1 (by simpa using h))

theorem served_append (e : InstanceTypeExtender R) (np : NodePool) (xs ys : List String) :
    served MatchString (served MatchString e np xs) np ys
      = served MatchString e np (xs ++ ys) := by
  by_cases hfast : e.extensions = []
      ∧ goLen (e.solvedMatches.lookup (np.Name ++ "&" ++ np.Namespace)) = 0
  · rw [served_of_fast MatchString e np xs hfast.1 hfast.2,
      served_of_fast MatchString e np ys hfast.1 hfast.2,
      served_of_fast MatchString e np (xs ++ ys) hfast.1 hfast.2]
  · cases xs with
    | nil => rw [served_nil, List.nil_append]
    | cons x xr =>
      have hx : x :: xr ≠ [] := List.cons_ne_nil _ _
      rw [served_of_slow MatchString e np (x :: xr) hfast hx]
      cases ys with
      | nil =>
        rw [served_nil, List.append_nil, served_of_slow MatchString e np (x :: xr) hfast hx]
      | cons y yr =>
        have hsome := resolvedAll_isSome MatchString np (np.Name ++ "&" ++ np.Namespace)
          (x :: xr) (prepared e (np.Name ++ "&" ++ np.Namespace)) (prepared_isSome e _)
        have hcached := cached_resolvedAll_mem MatchString np (np.Name ++ "&" ++ np.Namespace)
          (x :: xr) (prepared e (np.Name ++ "&" ++ np.Namespace)) (prepared_isSome e _) x
          (List.mem_cons_self _ _)
        have hslow1 : ¬ ((resolvedAll MatchString np (np.Name ++ "&" ++ np.Namespace)
            (prepared e (np.Name ++ "&" ++ np.Namespace)) (x :: xr)).extensions = []
            ∧ goLen ((resolvedAll MatchString np (np.Name ++ "&" ++ np.Namespace)
                (prepared e (np.Name ++ "&" ++ np.Namespace)) (x :: xr)).solvedMatches.lookup
                  (np.Name ++ "&" ++ np.Namespace)) = 0) := by
          intro h
          exact goLen_pos_of_cached _ _ x (by rw [hcached]; rfl) h.2
        rw [served_of_slow MatchString _ np (y :: yr) hslow1 (List.cons_ne_nil _ _),
          prepared_of_isSome _ _ hsome,
          served_of_slow MatchString e np (x :: xr ++ y :: yr) hfast (by simp),
          resolvedAll_append]

theorem lookup_served_other (e : InstanceTypeExtender R) (np : NodePool) (names : List String)
    (k : String) (hk : k ≠ np.Name ++ "&" ++ np.Namespace) :
    (served MatchString e np names).solvedMatches.lookup k = e.solvedMatches.lookup k := by
  unfold served
  split
  · rfl
  · rw [lookup_resolvedAll_other MatchString np _ names _ k hk, lookup_prepared_other e _ k hk]

theorem cached_served_cases (e : InstanceTypeExtender R) (np : NodePool) (names : List String)
    (n : String) (o : Option (extension R))
    (h : cached (served MatchString e np names) (np.Name ++ "&" ++ np.Namespace) n = some o) :
    cached e (np.Name ++ "&" ++ np.Namespace) n = some o
      ∨ (cached e (np.Name ++ "&" ++ np.Namespace) n = none ∧ n ∈ names
          ∧ o = e.extensions.find? (passes MatchString np n)) := by
  unfold served at h
  split at h
  · exact Or.inl h
  · rw [cached_resolvedAll MatchString np _ names _ (prepared_isSome e _), outcome_prepared,
      cached_prepared] at h
    by_cases hn : n ∈ names
    · rw [if_pos hn] at h
      cases hc : cached e (np.Name ++ "&" ++ np.Namespace) n with
      | some o1 =>
        left
        simp only [outcome, hc, Option.some.injEq] at h
        rw [h]
      | none =>
        right
        simp only [outcome, hc, Option.some.injEq] at h
        exact ⟨rfl, hn, h.symm⟩
    · rw [if_neg hn] at h
      exact Or.inl h

theorem cached_served (e : InstanceTypeExtender R) (np : NodePool) (names : List String)
    (hslow : ¬ (e.extensions = []
      ∧ goLen (e.solvedMatches.lookup (np.Name ++ "&" ++ np.Namespace)) = 0))
    (n : String) :
    cached (served MatchString e np names) (np.Name ++ "&" ++ np.Namespace) n
      = if n ∈ names then some (outcome MatchString e np (np.Name ++ "&" ++ np.Namespace) n)
        else cached e (np.Name ++ "&" ++ np.Namespace) n := by
  cases names with
  | nil => simp [served_nil]
  | cons a rest =>
    rw [served_of_slow MatchString e np (a :: rest) hslow (List.cons_ne_nil _ _),
      cached_resolvedAll MatchString np _ (a :: rest) _ (prepared_isSome e _), outcome_prepared,
      cached_prepared]

theorem cached_served_other (e : InstanceTypeExtender R) (np : NodePool) (names : List String)
    (k n : String) (hk : k ≠ np.Name ++ "&" ++ np.Namespace) :
    cached (served MatchString e np names) k n = cached e k n := by
  unfold cached
  rw [lookup_served_other MatchString e np names k hk]

theorem callSequence_candidates_ok
    (calls : List (List (String × GoMap Quantity) × NodePool)) (e : InstanceTypeExtender R) :
    ∃ (e1 : InstanceTypeExtender R) (outs : List (List (Option InstanceType))),
      callSequence MatchString e
          (calls.map fun c => (c.1.map fun x => candidate x.1 x.2, some c.2))
        = .ok (e1, outs) := by
  induction calls generalizing e with
  | nil => exact ⟨e, [], rfl⟩
  | cons c rest ih =>
    obtain ⟨e1, outs, h⟩ := ih (served MatchString e c.2 (c.1.map Prod.fst))
    refine ⟨e1, (c.1.map fun x => candidate x.1
      (extended (outcome MatchString e c.2 (c.2.Name ++ "&" ++ c.2.Namespace) x.1) x.2))
        :: outs, ?_⟩
    simp only [List.map_cons, callSequence, AddInstanceTypeExtensions_candidates, h]

theorem append_separator_inj (c : Char) (l1 l2 r1 r2 : List Char) (h1 : c ∉ l1) (h2 : c ∉ l2)
    (h : l1 ++ c :: r1 = l2 ++ c :: r2) : l1 = l2 ∧ r1 = r2 := by
  induction l1 generalizing l2 with
  | nil =>
    cases l2 with
    | nil => exact ⟨rfl, by simpa using h⟩
    | cons b t =>
      simp only [List.nil_append, List.cons_append, List.cons.injEq] at h
      exact absurd (h.1 ▸ List.mem_cons_self _ _) h2
  | cons a t ih =>
    cases l2 with
    | nil =>
      simp only [List.nil_append, List.cons_append, List.cons.injEq] at h
      exact absurd (h.1 ▸ List.mem_cons_self _ _) h1
    | cons b t2 =>
      simp only [List.cons_append, List.cons.injEq] at h
      obtain ⟨ht, hr⟩ := ih t2 (fun hm => h1 (List.mem_cons_of_mem _ hm))
        (fun hm => h2 (List.mem_cons_of_mem _ hm)) h.2
      exact ⟨by rw [h.1, ht], hr⟩

theorem charsLead_iff (p s : List Char) : charsLead p s = true ↔ ∃ post, s = p ++ post := by
  induction p generalizing s with
  | nil => simp [charsLead]
  | cons a p ih =>
    cases s with
    | nil => simp [charsLead]
    | cons b s =>
      simp only [charsLead, Bool.and_eq_true, beq_iff_eq, ih, List.cons_append, List.cons.injEq]
      constructor
      · rintro ⟨hab, post, hs⟩
        exact ⟨post, hab.symm, hs⟩
      · rintro ⟨post, hab, hs⟩
        exact ⟨hab.symm, post, hs⟩

theorem charsOccur_iff (p s : List Char) :
    charsOccur p s = true ↔ ∃ pre post, s = pre ++ p ++ post := by
  induction s with
  | nil =>
    simp only [charsOccur, List.isEmpty_iff]
    constructor
    · intro h
      exact ⟨[], [], by simp [h]⟩
    · rintro ⟨pre, post, h⟩
      have := congrArg List.length h
      simp only [List.length_nil, List.length_append] at this
      exact List.length_eq_zero.1 (by omega)
  | cons b s ih =>
    simp only [charsOccur, Bool.or_eq_true, charsLead_iff, ih]
    constructor
    · rintro (⟨post, h⟩ | ⟨pre, post, h⟩)
      · exact ⟨[], post, by simpa using h⟩
      · exact ⟨b :: pre, post, by simp [h]⟩
    · rintro ⟨pre, post, h⟩
      cases pre with
      | nil => exact Or.inl ⟨post, by simpa using h⟩
      | cons a pre =>
        simp only [List.cons_append, List.cons.injEq] at h
        exact Or.inr ⟨pre, post, h.2⟩

theorem labelGate_of_no_labels (ext : extension R) (np : NodePool)
    (h : ext.requiredNPLabels.entries = []) : labelGate ext np = true := by
  rw [labelGate_eq_all, h]
  rfl

theorem passes_congr (np1 np2 : NodePool) (h : np1.Labels = np2.Labels) (n : String) :
    passes MatchString np1 n = passes MatchString np2 n := by
  funext r
  simp only [passes, labelGate_eq_all, h]

theorem cacheFree_eq (rules : List (extension R)) (np : NodePool)
    (c : String × GoMap Quantity) :
    cacheFree MatchString rules np c
      = candidate c.1 (extended (rules.find? (passes MatchString np c.1)) c.2) := by
  have hp : passes MatchString np c.1 = fun r => MatchString r.regex c.1 && labelGate r np :=
    rfl
  unfold cacheFree
  rw [hp]
  cases rules.find? (fun r => MatchString r.regex c.1 && labelGate r np) <;> rfl

theorem callSequence_cacheFree (calls : List (List (String × GoMap Quantity) × NodePool))
    (e : InstanceTypeExtender R)
    (hstable : ∀ c1 ∈ calls, ∀ c2 ∈ calls,
      c1.2.Name ++ "&" ++ c1.2.Namespace = c2.2.Name ++ "&" ++ c2.2.Namespace →
      c1.2.Labels = c2.2.Labels)
    (hinv : ∀ c ∈ calls, ∀ n o, cached e (c.2.Name ++ "&" ++ c.2.Namespace) n = some o →
      o = e.extensions.find? (passes MatchString c.2 n)) :
    ∃ e1 : InstanceTypeExtender R,
      callSequence MatchString e
          (calls.map fun c => (c.1.map fun x => candidate x.1 x.2, some c.2))
        = .ok (e1, calls.map fun c => c.1.map (cacheFree MatchString e.extensions c.2)) := by
  induction calls generalizing e with
  | nil => exact ⟨e, rfl⟩
  | cons c rest ih =>
    have hout : ∀ n, outcome MatchString e c.2 (c.2.Name ++ "&" ++ c.2.Namespace) n
        = e.extensions.find? (passes MatchString c.2 n) := by
      intro n
      unfold outcome
      cases hc : cached e (c.2.Name ++ "&" ++ c.2.Namespace) n with
      | none => rfl
      | some o => exact hinv c (List.mem_cons_self _ _) n o hc
    have hstable1 : ∀ c1 ∈ rest, ∀ c2 ∈ rest,
        c1.2.Name ++ "&" ++ c1.2.Namespace = c2.2.Name ++ "&" ++ c2.2.Namespace →
        c1.2.Labels = c2.2.Labels := fun c1 h1 c2 h2 =>
      hstable c1 (List.mem_cons_of_mem _ h1) c2 (List.mem_cons_of_mem _ h2)
    have hinv1 : ∀ c1 ∈ rest, ∀ n o,
        cached (served MatchString e c.2 (c.1.map Prod.fst))
          (c1.2.Name ++ "&" ++ c1.2.Namespace) n = some o →
        o = (served MatchString e c.2 (c.1.map Prod.fst)).extensions.find?
              (passes MatchString c1.2 n) := by
      intro c1 h1 n o hc
      rw [served_extensions]
      by_cases hk : c1.2.Name ++ "&" ++ c1.2.Namespace = c.2.Name ++ "&" ++ c.2.Namespace
      · rw [hk] at hc
        rcases cached_served_cases MatchString e c.2 _ n o hc with h | ⟨_, _, h⟩
        · rw [← hk] at h
          exact hinv c1 (List.mem_cons_of_mem _ h1) n o h
        · rw [h, passes_congr MatchString c.2 c1.2
            (hstable c (List.mem_cons_self _ _) c1 (List.mem_cons_of_mem _ h1) hk.symm)]
      · rw [cached_served_other MatchString e c.2 _ _ n hk] at hc
        exact hinv c1 (List.mem_cons_of_mem _ h1) n o hc
    obtain ⟨e1, h⟩ := ih (served MatchString e c.2 (c.1.map Prod.fst)) hstable1 hinv1
    refine ⟨e1, ?_⟩
    rw [served_extensions] at h
    have hfree : cacheFree MatchString e.extensions c.2
        = fun x => candidate x.1
            (extended (e.extensions.find? (passes MatchString c.2 x.1)) x.2) :=
      funext (cacheFree_eq MatchString e.extensions c.2)
    simp only [List.map_cons, callSequence, AddInstanceTypeExtensions_candidates, h, hout,
      hfree]

theorem addInstanceTypeExtensions_unprepared (e : InstanceTypeExtender R) (poolKey : String)
    (hs : e.solvedMatches.lookup poolKey = none) (name : String) (cap : GoMap Quantity)
    (np : NodePool) :
    addInstanceTypeExtensions MatchString e poolKey (candidate name cap) (some np)
      = .error .nilMapAssignment := by
  have hscan := scanExtensions_candidate MatchString name name cap np e.extensions
  simp only [candidate] at hscan
  unfold addInstanceTypeExtensions
  simp [candidate, hs, hscan]

theorem AddInstanceTypeExtensions_unfold (e : InstanceTypeExtender R) (np : NodePool)
    (its : List (Option InstanceType)) :
    AddInstanceTypeExtensions MatchString e its (some np)
      = if (goLen (e.solvedMatches.lookup (np.Name ++ "&" ++ np.Namespace)) == 0
              && e.extensions.length == 0) || its.length == 0 then .ok (e, its)
        else rangeInstanceTypes MatchString (np.Name ++ "&" ++ np.Namespace) (some np)
          (prepared e (np.Name ++ "&" ++ np.Namespace)) its := by
  simp only [AddInstanceTypeExtensions, getKey, Option.isNone_some, Bool.or_false, prepared]

theorem specLabelGate_iff (ext : extension R) (np : NodePool) :
    specLabelGate ext np = true
      ↔ ∀ k v, ext.requiredNPLabels.lookup k = some v →
          np.Labels.bind (Finmap.lookup k) = some v := by
  unfold specLabelGate
  rw [List.all_eq_true]
  constructor
  · intro h k v hk
    have hmem : (⟨k, v⟩ : Sigma fun _ : String => String) ∈ ext.requiredNPLabels.entries :=
      AList.mem_lookup_iff.1 (by simp [hk])
    simpa using h _ hmem
  · rintro h ⟨k, v⟩ hmem
    have hk : ext.requiredNPLabels.lookup k = some v := by
      have := AList.mem_lookup_iff.2 hmem
      simpa using this
    simpa using h k v hk

theorem goIndex_eq_iff (labels : Option (GoMap String)) (k v : String) (hv : v ≠ "") :
    goIndex labels k = v ↔ labels.bind (Finmap.lookup k) = some v := by
  cases labels with
  | none =>
    simp only [goIndex, Option.none_bind]
    constructor
    · intro h
      exact absurd h.symm hv
    · intro h
      cases h
  | some m =>
    simp only [goIndex, Option.some_bind]
    cases hl : Finmap.lookup k m with
    | none =>
      simp only [Option.getD_none]
      constructor
      · intro h
        exact absurd h.symm hv
      · intro h
        cases h
    | some w => simp

theorem labelGate_of_specLabelGate (ext : extension R) (np : NodePool)
    (h : specLabelGate ext np = true) : labelGate ext np = true := by
  rw [labelGate_iff]
  intro k v hk
  have hs := (specLabelGate_iff ext np).1 h k v hk
  cases hl : np.Labels with
  | none => simp [hl] at hs
  | some m =>
    rw [hl] at hs
    simp only [Option.some_bind] at hs
    simp [goIndex, hs]

theorem labelGate_eq_specLabelGate (ext : extension R) (np : NodePool)
    (hvalues : ∀ k, ext.requiredNPLabels.lookup k ≠ some "") :
    labelGate ext np = specLabelGate ext np := by
  rw [Bool.eq_iff_iff, labelGate_iff, specLabelGate_iff]
  constructor
  · intro h k v hk
    have hv : v ≠ "" := fun hv => hvalues k (hv ▸ hk)
    exact (goIndex_eq_iff np.Labels k v hv).1 (h k v hk)
  · intro h k v hk
    have hv : v ≠ "" := fun hv => hvalues k (hv ▸ hk)
    exact (goIndex_eq_iff np.Labels k v hv).2 (h k v hk)

theorem find?_passes_eq_specPasses (rules : List (extension R)) (np : NodePool) (name : String)
    (hvalues : ∀ r ∈ rules, ∀ k, r.requiredNPLabels.lookup k ≠ some "") :
    rules.find? (passes MatchString np name) = rules.find? (specPasses MatchString np name) := by
  induction rules with
  | nil => rfl
  | cons r rest ih =>
    have hr : passes MatchString np name r = specPasses MatchString np name r := by
      simp only [passes, specPasses,
        labelGate_eq_specLabelGate r np (hvalues r (List.mem_cons_self _ _))]
    rw [List.find?_cons, List.find?_cons, hr,
      ih fun x hx => hvalues x (List.mem_cons_of_mem _ hx)]

theorem ruleEmptyZone_ne_ruleFpga : ruleEmptyZone ≠ ruleFpga := by
  intro h
  have h1 : ruleEmptyZone.requiredNPLabels.lookup "zone" = some "" := by decide
  have h2 : ruleFpga.requiredNPLabels.lookup "zone" = none := by decide
  rw [h, h2] at h1
  cases h1

theorem extended_ruleEmptyZone (cap : GoMap Quantity) :
    extended (some ruleEmptyZone) cap = Finmap.insert "vendor.com/fpga" 8 cap :=
  (foldl_insert_eq_union ruleEmptyZone.extendedResources cap).symm

theorem extended_ruleFpga (cap : GoMap Quantity) :
    extended (some ruleFpga) cap = Finmap.insert "vendor.com/fpga" 2 cap :=
  (foldl_insert_eq_union ruleFpga.extendedResources cap).symm

theorem extended_ruleZoned (cap : GoMap Quantity) :
    extended (some ruleZoned) cap = Finmap.insert "vendor.com/fpga" 8 cap :=
  (foldl_insert_eq_union ruleZoned.extendedResources cap).symm

theorem addInstanceTypeExtensions_uncached (e : InstanceTypeExtender R) (poolKey : String)
    (hseg : e.solvedMatches.lookup poolKey = some ∅) (name : String) (cap : GoMap Quantity)
    (np : NodePool) :
    addInstanceTypeExtensions MatchString e poolKey (candidate name cap) (some np)
        = .ok (resolved MatchString e np poolKey name,
               candidate name (extended (e.extensions.find? (passes MatchString np name)) cap))
    ∧ cached (resolved MatchString e np poolKey name) poolKey name
        = some (e.extensions.find? (passes MatchString np name)) := by
  have hout : outcome MatchString e np poolKey name
      = e.extensions.find? (passes MatchString np name) := by
    simp [outcome, cached, hseg, Finmap.lookup_empty]
  constructor
  · rw [addInstanceTypeExtensions_candidate MatchString e poolKey ∅ hseg, hout]
  · rw [cached_resolved MatchString e np poolKey name (by rw [hseg]; rfl) name, if_pos rfl, hout]

theorem AddInstanceTypeExtensions_fresh (e : InstanceTypeExtender R)
    (hempty : e.solvedMatches = ∅) (np : NodePool) (name : String) (cap : GoMap Quantity) :
    AddInstanceTypeExtensions MatchString e [candidate name cap] (some np)
      = .ok (served MatchString e np [name],
             [candidate name (extended (e.extensions.find? (passes MatchString np name)) cap)]) := by
  have h0 : goLen (e.solvedMatches.lookup (np.Name ++ "&" ++ np.Namespace)) = 0 := by
    rw [hempty, Finmap.lookup_empty]
    rfl
  have h := AddInstanceTypeExtensions_candidates MatchString e np [(name, cap)]
  simp only [List.map_cons, List.map_nil,
    outcome_of_goLen_eq_zero MatchString e np _ name h0] at h
  exact h

theorem insert_empty_eq_singleton {V : Type} (k : String) (v : V) :
    Finmap.insert k v (∅ : GoMap V) = Finmap.singleton k v := by
  apply Finmap.ext_lookup
  intro x
  by_cases hx : x = k
  · subst hx
    rw [Finmap.lookup_insert, Finmap.lookup_singleton_eq]
  · rw [Finmap.lookup_insert_of_ne _ hx, Finmap.lookup_empty]
    symm
    rw [Finmap.lookup_eq_none, Finmap.mem_singleton]
    exact hx

end Lemmas

section Claims

variable {R : Type} (MatchString : R → String → Bool)

/-- First match wins, with the label gate as the code computes it
(`labelGate`).  For an engine whose cache segment for the pool is initialised
and does not hold the name, a present node pool and a present candidate,
`addInstanceTypeExtensions` returns and stores under the pair an outcome `m`
such that: `m` is a rule `r` exactly when `r` is at a position of the rule list
where it passes both checks of the code while every rule before it fails one
of them; `m` is no-match exactly when no rule passes both checks. -/
theorem addInstanceTypeExtensions_first_passing (e : InstanceTypeExtender R) (poolKey : String)
    (seg : GoMap (Option (extension R))) (hseg : e.solvedMatches.lookup poolKey = some seg)
    (name : String) (hnew : seg.lookup name = none) (cap : GoMap Quantity) (np : NodePool) :
    ∃ m : Option (extension R),
      addInstanceTypeExtensions MatchString e poolKey (candidate name cap) (some np)
        = .ok ({ e with solvedMatches := (e.solvedMatches.insert poolKey (seg.insert name m)) },
               candidate name (extended m cap))
      ∧ (∀ r, m = some r ↔
          ∃ pre post, e.extensions = pre ++ r :: post
            ∧ (MatchString r.regex name = true ∧ labelGate r np = true)
            ∧ ∀ x ∈ pre, ¬ (MatchString x.regex name = true ∧ labelGate x np = true))
      ∧ (m = none ↔
          ∀ x ∈ e.extensions, ¬ (MatchString x.regex name = true ∧ labelGate x np = true))
      ∧ (∀ r1 r2 rest, e.extensions = r1 :: r2 :: rest →
          MatchString r1.regex name = true → labelGate r1 np = false →
          MatchString r2.regex name = true → labelGate r2 np = true → m = some r2) := by
  refine ⟨e.extensions.find? (passes MatchString np name), ?_, ?_, ?_, ?_⟩
  · rw [addInstanceTypeExtensions_candidate MatchString e poolKey seg hseg,
      resolved_miss MatchString e np poolKey name seg hseg hnew]
    simp [outcome, cached, hseg, hnew]
  · intro r
    rw [List.find?_eq_some]
    constructor
    · rintro ⟨hp, pre, post, hsplit, hpre⟩
      exact ⟨pre, post, hsplit, (passes_eq_true_iff MatchString np name r).1 hp,
        fun x hx => (not_passes_iff MatchString np name x).1 (hpre x hx)⟩
    · rintro ⟨pre, post, hsplit, hp, hpre⟩
      exact ⟨(passes_eq_true_iff MatchString np name r).2 hp, pre, post, hsplit,
        fun x hx => (not_passes_iff MatchString np name x).2 (hpre x hx)⟩
  · rw [List.find?_eq_none]
    simp [passes]
  · intro r1 r2 rest hrules h1 hg1 h2 hg2
    simp [hrules, List.find?, passes, h1, hg1, h2, hg2]

/-- On `engineTwoRules`, `ruleZoned` matches `g4dn.xlarge` but the pool lacks
its label `zone` = `us-east-1a`, `ruleFpga` matches and has no label gate; the
stored outcome is `ruleFpga`. -/
theorem addInstanceTypeExtensions_first_passing_example :
    engineTwoRules.solvedMatches.lookup "default&" = some ∅
    ∧ (∅ : GoMap (Option (extension String))).lookup "g4dn.xlarge" = none
    ∧ ∃ m : Option (extension String),
        addInstanceTypeExtensions literalMatchString engineTwoRules "default&"
            (candidate "g4dn.xlarge" ∅) (some poolDefault)
          = .ok ({ engineTwoRules with solvedMatches :=
                    (engineTwoRules.solvedMatches.insert "default&"
                      (Finmap.insert "g4dn.xlarge" m ∅)) },
                 candidate "g4dn.xlarge" (extended m ∅))
        ∧ m = some ruleFpga := by
  have h1 : engineTwoRules.solvedMatches.lookup "default&" = some ∅ :=
    Finmap.lookup_singleton_eq
  have h2 : (∅ : GoMap (Option (extension String))).lookup "g4dn.xlarge" = none :=
    Finmap.lookup_empty _
  obtain ⟨m, hcall, _, _, hpair⟩ :=
    addInstanceTypeExtensions_first_passing literalMatchString engineTwoRules "default&" ∅ h1 "g4dn.xlarge" h2 ∅
      poolDefault
  exact ⟨h1, h2, m, hcall,
    hpair ruleZoned ruleFpga [] rfl (by decide) (by decide) (by decide) (by decide)⟩

/-- C1 at its failing input (the defect of C5, seen through resolution).  On
`engineEmptyZone` the rules are `ruleEmptyZone` (pattern `^g4dn`, required
label `zone` with the empty value) and `ruleFpga` (pattern `^g4dn`, no required
labels); both match `g4dn.xlarge`.  The pool `default` has no labels, so the
required key `zone` is missing: `ruleEmptyZone` fails the label gate of the
specification and the first rule that passes both checks is `ruleFpga`.
`addInstanceTypeExtensions` resolves to `ruleEmptyZone` instead: it applies
`vendor.com/fpga` = 8 and caches `ruleEmptyZone` under the pair.  With the
required value `us-east-1a` in place of the empty value (`engineTwoRules`) the
code does what the claim says: on the pool without labels the first rule fails
its gate and the result is the second rule, on the pool with the label the
result is the first rule. -/
theorem C1_missing_label_rule_wins :
    literalMatchString ruleEmptyZone.regex "g4dn.xlarge" = true
    ∧ poolDefault.Labels.bind (Finmap.lookup "zone") = none
    ∧ specLabelGate ruleEmptyZone poolDefault = false
    ∧ literalMatchString ruleFpga.regex "g4dn.xlarge" = true
    ∧ specLabelGate ruleFpga poolDefault = true
    ∧ engineEmptyZone.extensions.find? (specPasses literalMatchString poolDefault "g4dn.xlarge")
        = some ruleFpga
    ∧ (∃ e1 : InstanceTypeExtender String,
        addInstanceTypeExtensions literalMatchString engineEmptyZone "default&"
            (candidate "g4dn.xlarge" ∅) (some poolDefault)
          = .ok (e1, candidate "g4dn.xlarge" (Finmap.singleton "vendor.com/fpga" 8))
        ∧ cached e1 "default&" "g4dn.xlarge" = some (some ruleEmptyZone))
    ∧ ruleEmptyZone ≠ ruleFpga
    ∧ (∃ e1 : InstanceTypeExtender String,
        addInstanceTypeExtensions literalMatchString engineTwoRules "default&"
            (candidate "g4dn.xlarge" ∅) (some poolDefault)
          = .ok (e1, candidate "g4dn.xlarge" (Finmap.singleton "vendor.com/fpga" 2))
        ∧ cached e1 "default&" "g4dn.xlarge" = some (some ruleFpga)
        ∧ engineTwoRules.extensions.find?
            (specPasses literalMatchString poolDefault "g4dn.xlarge") = some ruleFpga)
    ∧ (∃ e1 : InstanceTypeExtender String,
        addInstanceTypeExtensions literalMatchString engineTwoRules "default&"
            (candidate "g4dn.xlarge" ∅) (some poolDefaultEast)
          = .ok (e1, candidate "g4dn.xlarge" (Finmap.singleton "vendor.com/fpga" 8))
        ∧ cached e1 "default&" "g4dn.xlarge" = some (some ruleZoned)
        ∧ engineTwoRules.extensions.find?
            (specPasses literalMatchString poolDefaultEast "g4dn.xlarge") = some ruleZoned) := by
  have hbug := addInstanceTypeExtensions_uncached literalMatchString engineEmptyZone "default&"
    Finmap.lookup_singleton_eq "g4dn.xlarge" ∅ poolDefault
  have hbugf : engineEmptyZone.extensions.find?
      (passes literalMatchString poolDefault "g4dn.xlarge") = some ruleEmptyZone :=
    List.find?_cons_of_pos _ (by decide)
  rw [hbugf, extended_ruleEmptyZone, insert_empty_eq_singleton] at hbug
  have hplain := addInstanceTypeExtensions_uncached literalMatchString engineTwoRules
    "default&" Finmap.lookup_singleton_eq "g4dn.xlarge" ∅ poolDefault
  have hplainf : engineTwoRules.extensions.find?
      (passes literalMatchString poolDefault "g4dn.xlarge") = some ruleFpga :=
    (List.find?_cons_of_neg _ (by decide)).trans (List.find?_cons_of_pos _ (by decide))
  rw [hplainf, extended_ruleFpga, insert_empty_eq_singleton] at hplain
  have heast := addInstanceTypeExtensions_uncached literalMatchString engineTwoRules
    "default&" Finmap.lookup_singleton_eq "g4dn.xlarge" ∅ poolDefaultEast
  have heastf : engineTwoRules.extensions.find?
      (passes literalMatchString poolDefaultEast "g4dn.xlarge") = some ruleZoned :=
    List.find?_cons_of_pos _ (by decide)
  rw [heastf, extended_ruleZoned, insert_empty_eq_singleton] at heast
  refine ⟨by decide, rfl, by decide, by decide, by decide, ?_, ⟨_, hbug.1, hbug.2⟩,
    ruleEmptyZone_ne_ruleFpga, ⟨_, hplain.1, hplain.2, ?_⟩, ⟨_, heast.1, heast.2, ?_⟩⟩
  · exact (List.find?_cons_of_neg _ (by decide)).trans (List.find?_cons_of_pos _ (by decide))
  · exact (List.find?_cons_of_neg _ (by decide)).trans (List.find?_cons_of_pos _ (by decide))
  · exact List.find?_cons_of_pos _ (by decide)

/-- C2 (cache stability).  Once a pair has an entry `o` in `solvedMatches` (a
rule or an explicit no-match): whatever the rule list then contains and
whatever the node pool then is, `addInstanceTypeExtensions` for that pair
returns with the engine unchanged and the candidate extended by the cached `o`
(no rule is consulted); and every later `AddInstanceTypeExtensions` for a pool
with that key, whatever its labels, returns, leaves the entry `o` in place and
extends every candidate of that name by `o`. -/
theorem C2_cache_stability (e : InstanceTypeExtender R) (poolKey name : String)
    (o : Option (extension R)) (hc : cached e poolKey name = some o) :
    (∀ (rules : List (extension R)) (nodePool : Option NodePool) (cap : GoMap Quantity),
      addInstanceTypeExtensions MatchString { e with extensions := rules } poolKey
          (candidate name cap) nodePool
        = .ok ({ e with extensions := rules }, candidate name (extended o cap)))
    ∧ (∀ (rules : List (extension R)) (np : NodePool) (cs : List (String × GoMap Quantity)),
        np.Name ++ "&" ++ np.Namespace = poolKey →
        ∃ e1 : InstanceTypeExtender R,
          AddInstanceTypeExtensions MatchString { e with extensions := rules }
              (cs.map fun c => candidate c.1 c.2) (some np)
            = .ok (e1, cs.map fun c => candidate c.1
                (extended (if c.1 = name then o
                  else outcome MatchString { e with extensions := rules } np poolKey c.1) c.2))
          ∧ cached e1 poolKey name = some o
          ∧ e1.extensions = rules) := by
  constructor
  · intro rules nodePool cap
    exact addInstanceTypeExtensions_cached MatchString { e with extensions := rules } poolKey
      name o hc cap nodePool
  · intro rules np cs hkey
    subst hkey
    have hc1 : cached ({ e with extensions := rules } : InstanceTypeExtender R)
        (np.Name ++ "&" ++ np.Namespace) name = some o := hc
    refine ⟨served MatchString { e with extensions := rules } np (cs.map Prod.fst), ?_, ?_, ?_⟩
    · rw [AddInstanceTypeExtensions_candidates]
      congr 2
      apply List.map_congr_left
      intro c _
      by_cases hn : c.1 = name
      · rw [if_pos hn, hn]
        simp [outcome, hc1]
      · rw [if_neg hn]
    · exact cached_served_of_cached MatchString _ np _ _ name o hc1
    · rw [served_extensions]

/-- Witness of C2 on `engineCachedNoMatch`: `m5.large` is cached as no-match
for the pool `default`, so the rule `ruleM5`, which matches the name, is not
applied. -/
theorem C2_cache_stability_witness :
    cached engineCachedNoMatch "default&" "m5.large" = some none
    ∧ addInstanceTypeExtensions literalMatchString engineCachedNoMatch "default&"
          (candidate "m5.large" ∅) (some poolDefault)
        = .ok (engineCachedNoMatch, candidate "m5.large" ∅)
    ∧ ∃ e1 : InstanceTypeExtender String,
        AddInstanceTypeExtensions literalMatchString engineCachedNoMatch
            [candidate "m5.large" ∅] (some poolDefault)
          = .ok (e1, [candidate "m5.large" ∅])
        ∧ cached e1 "default&" "m5.large" = some none := by
  have hc : cached engineCachedNoMatch "default&" "m5.large" = some none := by
    simp [cached, engineCachedNoMatch, Finmap.lookup_singleton_eq]
  have h := C2_cache_stability literalMatchString engineCachedNoMatch "default&" "m5.large"
    none hc
  obtain ⟨e1, hcall, hkept, _⟩ := h.2 [ruleM5] poolDefault [("m5.large", ∅)] (by decide)
  refine ⟨hc, h.1 [ruleM5] (some poolDefault) ∅, e1, ?_, hkept⟩
  simpa [extended] using hcall

/-- Resolution stores its outcome, with the label gate as the code computes it
(`labelGate`).  For an engine whose cache segment for the pool is initialised
and does not hold the name, resolution returns an outcome `m`, extends the
candidate by it and stores it under the pair; when every rule fails the name
match or the gate of the code, `m` is no-match, the candidate is unchanged and
the stored entry is the explicit no-match; and a later resolution of the pair
returns the same `m` whatever the rule list has become. -/
theorem addInstanceTypeExtensions_stores_outcome (e : InstanceTypeExtender R) (poolKey : String)
    (seg : GoMap (Option (extension R))) (hseg : e.solvedMatches.lookup poolKey = some seg)
    (name : String) (hnew : seg.lookup name = none) (cap : GoMap Quantity) (np : NodePool) :
    ∃ (m : Option (extension R)) (e1 : InstanceTypeExtender R),
      addInstanceTypeExtensions MatchString e poolKey (candidate name cap) (some np)
        = .ok (e1, candidate name (extended m cap))
      ∧ cached e1 poolKey name = some m
      ∧ ((∀ r ∈ e.extensions, MatchString r.regex name = true → labelGate r np = false) →
          m = none
          ∧ addInstanceTypeExtensions MatchString e poolKey (candidate name cap) (some np)
              = .ok ({ e with solvedMatches :=
                        (e.solvedMatches.insert poolKey (seg.insert name none)) },
                     candidate name cap))
      ∧ (∀ (rules : List (extension R)) (nodePool : Option NodePool) (cap1 : GoMap Quantity),
          addInstanceTypeExtensions MatchString { e1 with extensions := rules } poolKey
              (candidate name cap1) nodePool
            = .ok ({ e1 with extensions := rules }, candidate name (extended m cap1))) := by
  have hcall := addInstanceTypeExtensions_candidate MatchString e poolKey seg hseg name cap np
  have hout : outcome MatchString e np poolKey name
      = e.extensions.find? (passes MatchString np name) := by
    simp [outcome, cached, hseg, hnew]
  have hstored : cached (resolved MatchString e np poolKey name) poolKey name
      = some (e.extensions.find? (passes MatchString np name)) := by
    rw [cached_resolved MatchString e np poolKey name (by simp [hseg]) name, if_pos rfl, hout]
  refine ⟨e.extensions.find? (passes MatchString np name),
    resolved MatchString e np poolKey name, ?_, hstored, ?_, ?_⟩
  · rw [hcall, hout]
  · intro hnone
    have hm : e.extensions.find? (passes MatchString np name) = none := by
      rw [List.find?_eq_none]
      intro x hx hp
      have hp1 := (passes_eq_true_iff MatchString np name x).1 hp
      rw [hnone x hx hp1.1] at hp1
      exact Bool.false_ne_true hp1.2
    refine ⟨hm, ?_⟩
    rw [hcall, hout, resolved_miss MatchString e np poolKey name seg hseg hnew, hm]
    rfl
  · intro rules nodePool cap1
    exact addInstanceTypeExtensions_cached MatchString
      { resolved MatchString e np poolKey name with extensions := rules } poolKey name _
      hstored cap1 nodePool

/-- On an engine with the only rule `ruleZoned` and the pool `default` (no
labels), `g4dn.xlarge` matches by name but fails the label gate; the explicit
no-match is stored and the capacity is unchanged. -/
theorem addInstanceTypeExtensions_stores_outcome_example :
    engineZoned.solvedMatches.lookup "default&" = some ∅
    ∧ (∅ : GoMap (Option (extension String))).lookup "g4dn.xlarge" = none
    ∧ addInstanceTypeExtensions literalMatchString engineZoned "default&"
          (candidate "g4dn.xlarge" ∅) (some poolDefault)
        = .ok ({ solvedMatches :=
                  (engineZoned.solvedMatches.insert "default&"
                    (Finmap.insert "g4dn.xlarge" none ∅)),
                 extensions := [ruleZoned] },
               candidate "g4dn.xlarge" ∅) := by
  have h1 : engineZoned.solvedMatches.lookup "default&" = some ∅ :=
    Finmap.lookup_singleton_eq
  have h2 : (∅ : GoMap (Option (extension String))).lookup "g4dn.xlarge" = none :=
    Finmap.lookup_empty _
  obtain ⟨m, e1, _, _, hnone, _⟩ :=
    addInstanceTypeExtensions_stores_outcome literalMatchString engineZoned
      "default&" ∅ h1 "g4dn.xlarge" h2 ∅ poolDefault
  refine ⟨h1, h2, (hnone ?_).2⟩
  intro r hr _
  have : r = ruleZoned := by simpa [engineZoned] using hr
  subst this
  decide

/-- C3 at its failing input (the defect of C5, seen through negative caching).
On `engineEmptyZoneOnly` the only rule is `ruleEmptyZone`, which matches
`g4dn.xlarge` and requires the label `zone` with the empty value; the pool
`default` has no labels, so every name-matching rule fails the label gate of
the specification and the resolution should store the explicit no-match and
leave the capacity unchanged.  `addInstanceTypeExtensions` applies
`vendor.com/fpga` = 8 and caches `ruleEmptyZone` under the pair, and a later
resolution returns that rule from the cache.  With the required value
`us-east-1a` in place of the empty value (`engineZoned`) the code does what the
claim says: it stores the explicit no-match and leaves the capacity
unchanged. -/
theorem C3_missing_label_rule_cached :
    (∀ r ∈ engineEmptyZoneOnly.extensions,
      literalMatchString r.regex "g4dn.xlarge" = true → specLabelGate r poolDefault = false)
    ∧ engineEmptyZoneOnly.extensions.find?
        (specPasses literalMatchString poolDefault "g4dn.xlarge") = none
    ∧ (∃ e1 : InstanceTypeExtender String,
        addInstanceTypeExtensions literalMatchString engineEmptyZoneOnly "default&"
            (candidate "g4dn.xlarge" ∅) (some poolDefault)
          = .ok (e1, candidate "g4dn.xlarge" (Finmap.singleton "vendor.com/fpga" 8))
        ∧ cached e1 "default&" "g4dn.xlarge" = some (some ruleEmptyZone)
        ∧ addInstanceTypeExtensions literalMatchString e1 "default&"
            (candidate "g4dn.xlarge" ∅) (some poolDefault)
          = .ok (e1, candidate "g4dn.xlarge" (Finmap.singleton "vendor.com/fpga" 8)))
    ∧ candidate "g4dn.xlarge" (Finmap.singleton "vendor.com/fpga" 8)
        ≠ candidate "g4dn.xlarge" ∅
    ∧ (∃ e1 : InstanceTypeExtender String,
        addInstanceTypeExtensions literalMatchString engineZoned "default&"
            (candidate "g4dn.xlarge" ∅) (some poolDefault)
          = .ok (e1, candidate "g4dn.xlarge" ∅)
        ∧ cached e1 "default&" "g4dn.xlarge" = some none
        ∧ engineZoned.extensions.find?
            (specPasses literalMatchString poolDefault "g4dn.xlarge") = none) := by
  have hbug := addInstanceTypeExtensions_uncached literalMatchString engineEmptyZoneOnly
    "default&" Finmap.lookup_singleton_eq "g4dn.xlarge" ∅ poolDefault
  have hbugf : engineEmptyZoneOnly.extensions.find?
      (passes literalMatchString poolDefault "g4dn.xlarge") = some ruleEmptyZone :=
    List.find?_cons_of_pos _ (by decide)
  rw [hbugf, extended_ruleEmptyZone, insert_empty_eq_singleton] at hbug
  have hplain := addInstanceTypeExtensions_uncached literalMatchString engineZoned
    "default&" Finmap.lookup_singleton_eq "g4dn.xlarge" ∅ poolDefault
  have hplainf : engineZoned.extensions.find?
      (passes literalMatchString poolDefault "g4dn.xlarge") = none :=
    (List.find?_cons_of_neg _ (by decide)).trans rfl
  rw [hplainf] at hplain
  refine ⟨?_, ?_, ⟨_, hbug.1, hbug.2, ?_⟩, ?_, ⟨_, hplain.1, hplain.2, ?_⟩⟩
  · intro r hr _
    have : r = ruleEmptyZone := by simpa [engineEmptyZoneOnly] using hr
    subst this
    decide
  · exact (List.find?_cons_of_neg _ (by decide)).trans rfl
  · rw [addInstanceTypeExtensions_cached literalMatchString _ "default&" "g4dn.xlarge" _
      hbug.2, extended_ruleEmptyZone, insert_empty_eq_singleton]
  · intro h
    have hcap : (Finmap.singleton "vendor.com/fpga" 8 : GoMap Quantity) = ∅ := by
      simpa [candidate] using h
    have hl := congrArg (Finmap.lookup "vendor.com/fpga") hcap
    rw [Finmap.lookup_singleton_eq, Finmap.lookup_empty] at hl
    cases hl
  · exact (List.find?_cons_of_neg _ (by decide)).trans rfl

/-- C4, as amended (empty rule set).  With an empty rule list and no cached
entries for the pool, `AddInstanceTypeExtensions` leaves every candidate and
the engine unchanged: nothing is cached on this fast path.  A later
`AddInstanceTypeExtensions` for the same pool, after the rule list was
replaced, therefore resolves every candidate name afresh: the candidate gets
the extended resources of the first rule of the new list that matches its name
and passes the label gate, and is unchanged only when there is none. -/
theorem C4_empty_rule_set (e : InstanceTypeExtender R) (np : NodePool)
    (hrules : e.extensions = [])
    (hcache : goLen (e.solvedMatches.lookup (np.Name ++ "&" ++ np.Namespace)) = 0)
    (cs : List (String × GoMap Quantity)) :
    AddInstanceTypeExtensions MatchString e (cs.map fun c => candidate c.1 c.2) (some np)
      = .ok (e, cs.map fun c => candidate c.1 c.2)
    ∧ ∀ rules : List (extension R), ∃ e1 : InstanceTypeExtender R,
        AddInstanceTypeExtensions MatchString { e with extensions := rules }
            (cs.map fun c => candidate c.1 c.2) (some np)
          = .ok (e1, cs.map fun c => candidate c.1
              (extended (rules.find? (passes MatchString np c.1)) c.2)) := by
  constructor
  · exact AddInstanceTypeExtensions_fast MatchString e np hrules hcache _
  · intro rules
    refine ⟨served MatchString { e with extensions := rules } np (cs.map Prod.fst), ?_⟩
    rw [AddInstanceTypeExtensions_candidates]
    congr 2
    apply List.map_congr_left
    intro c _
    rw [outcome_of_goLen_eq_zero MatchString { e with extensions := rules } np _ c.1 hcache]

/-- Witness of C4 as amended, on `engineEmpty` and the candidate `m5.large`
with capacity `{}`. -/
theorem C4_empty_rule_set_witness :
    engineEmpty.extensions = []
    ∧ goLen (engineEmpty.solvedMatches.lookup
        (poolDefault.Name ++ "&" ++ poolDefault.Namespace)) = 0
    ∧ AddInstanceTypeExtensions literalMatchString engineEmpty [candidate "m5.large" ∅]
          (some poolDefault)
        = .ok (engineEmpty, [candidate "m5.large" ∅]) := by
  have h1 : engineEmpty.extensions = [] := rfl
  have h2 : goLen (engineEmpty.solvedMatches.lookup
      (poolDefault.Name ++ "&" ++ poolDefault.Namespace)) = 0 := by
    simp [engineEmpty, goLen, Finmap.lookup_empty]
  exact ⟨h1, h2,
    (C4_empty_rule_set literalMatchString engineEmpty poolDefault h1 h2 [("m5.large", ∅)]).1⟩

/-- Counterexample to C4 as stated: on `engineEmpty` the call for `m5.large`
with capacity `{}` changes nothing and caches nothing; once the rule `ruleM5`
is added, the next call for the same pool and candidate resolves to `ruleM5`
(not to no-match), caches it, and changes the capacity. -/
theorem C4_counterexample :
    AddInstanceTypeExtensions literalMatchString engineEmpty [candidate "m5.large" ∅]
        (some poolDefault)
      = .ok (engineEmpty, [candidate "m5.large" ∅])
    ∧ (∃ e1 : InstanceTypeExtender String,
        AddInstanceTypeExtensions literalMatchString engineOnlyM5
            [candidate "m5.large" ∅] (some poolDefault)
          = .ok (e1, [candidate "m5.large" (Finmap.singleton "example.com/dev" 1)])
        ∧ cached e1 "default&" "m5.large" = some (some ruleM5))
    ∧ candidate "m5.large" (Finmap.singleton "example.com/dev" 1) ≠ candidate "m5.large" ∅ := by
  have h2 : goLen (engineEmpty.solvedMatches.lookup
      (poolDefault.Name ++ "&" ++ poolDefault.Namespace)) = 0 := by
    simp [engineEmpty, goLen, Finmap.lookup_empty]
  have hkey : poolDefault.Name ++ "&" ++ poolDefault.Namespace = "default&" := by decide
  have h3 : goLen (engineOnlyM5.solvedMatches.lookup
      (poolDefault.Name ++ "&" ++ poolDefault.Namespace)) = 0 := h2
  have hout : outcome literalMatchString engineOnlyM5
      poolDefault (poolDefault.Name ++ "&" ++ poolDefault.Namespace) "m5.large"
      = some ruleM5 := by
    rw [outcome_of_goLen_eq_zero literalMatchString _ poolDefault _ "m5.large" h3]
    exact List.find?_cons_of_pos [] (by decide)
  refine ⟨AddInstanceTypeExtensions_fast literalMatchString engineEmpty poolDefault rfl h2 _,
    ⟨served literalMatchString engineOnlyM5 poolDefault ["m5.large"], ?_, ?_⟩, ?_⟩
  · have := AddInstanceTypeExtensions_candidates literalMatchString
      engineOnlyM5 poolDefault [("m5.large", ∅)]
    simp only [List.map_cons, List.map_nil, hout] at this
    rw [this]
    simp [extended, ruleM5, Finmap.singleton, Finmap.union_empty]
  · have := cached_served_mem literalMatchString engineOnlyM5
      poolDefault ["m5.large"] (by simp [engineOnlyM5]) "m5.large" (by simp)
    rw [hout, hkey] at this
    exact this
  · intro h
    have hcap : (Finmap.singleton "example.com/dev" 1 : GoMap Quantity) = ∅ := by
      simpa [candidate] using h
    have hl := congrArg (Finmap.lookup "example.com/dev") hcap
    rw [Finmap.lookup_singleton_eq, Finmap.lookup_empty] at hl
    cases hl

/-- C5 at its failing input: a rule requiring the label `zone` with the empty
string as value passes the label gate of `addExtension` against a node pool
whose labels do not hold the key `zone` at all. -/
theorem C5_missing_label_passes (r : R) (name : String) (cap : GoMap Quantity) :
    (∅ : GoMap String).lookup "zone" = none
    ∧ addExtension (candidate name cap)
        { requiredNPLabels := AList.singleton "zone" "", regex := r, extendedResources := ∅ }
        (some { Name := "default", Namespace := "", Labels := some ∅ })
      = .ok (candidate name cap, true) := by
  refine ⟨Finmap.lookup_empty _, ?_⟩
  rw [addExtension_candidate]
  have hg : labelGate
      ({ requiredNPLabels := AList.singleton "zone" "", regex := r, extendedResources := ∅ } :
        extension R)
      { Name := "default", Namespace := "", Labels := some ∅ } = true := by
    rw [labelGate_eq_all]
    simp [AList.singleton, goIndex, Finmap.lookup_empty]
  rw [hg]
  simp [Finmap.empty_union]

/-- C6 (overwrite, not merge, never remove).  On a present candidate with an
initialised capacity map, `addExtendedResources` returns the candidate with a
capacity map in which every resource name of the rule maps to exactly the
quantity of the rule, and every other name maps to what it mapped to before
(present with its old value, or still absent). -/
theorem C6_overwrite_not_merge (name : String) (cap : GoMap Quantity) (ext : extension R) :
    ∃ cap1 : GoMap Quantity,
      addExtendedResources (candidate name cap) ext = .ok (candidate name cap1)
      ∧ (∀ res val, ext.extendedResources.lookup res = some val → cap1.lookup res = some val)
      ∧ (∀ res, ext.extendedResources.lookup res = none → cap1.lookup res = cap.lookup res) := by
  refine ⟨ext.extendedResources.toFinmap ∪ cap, addExtendedResources_candidate name cap ext,
    ?_, ?_⟩
  · intro res val h
    have hmem : res ∈ ext.extendedResources.toFinmap :=
      Finmap.mem_iff.2 ⟨val, by rw [Finmap.lookup_toFinmap]; exact h⟩
    rw [Finmap.lookup_union_left hmem, Finmap.lookup_toFinmap]
    exact h
  · intro res h
    have hmem : res ∉ ext.extendedResources.toFinmap :=
      Finmap.lookup_eq_none.1 (by rw [Finmap.lookup_toFinmap]; exact h)
    rw [Finmap.lookup_union_right hmem]

/-- Witness of C6: capacity `nvidia.com/gpu` = 1 and the rule `ruleGpu` with
`nvidia.com/gpu` = 4 give 4. -/
theorem C6_overwrite_not_merge_witness :
    ∃ cap1 : GoMap Quantity,
      addExtendedResources (candidate "p3.2xlarge" (Finmap.singleton "nvidia.com/gpu" 1))
          ruleGpu
        = .ok (candidate "p3.2xlarge" cap1)
      ∧ cap1.lookup "nvidia.com/gpu" = some 4 := by
  obtain ⟨cap1, hcall, hset, _⟩ :=
    C6_overwrite_not_merge "p3.2xlarge" (Finmap.singleton "nvidia.com/gpu" 1) ruleGpu
  exact ⟨cap1, hcall, hset "nvidia.com/gpu" 4 (by decide)⟩

/-- The result of the batch entry point, with the label gate as the code
computes it (`labelGate`).  On an engine with an empty cache, for every present
node pool and every list of present candidates with initialised capacity maps,
`AddInstanceTypeExtensions` returns and every candidate keeps its name and has
its original capacity overridden by the extended resources of the first rule,
in declaration order, that matches its name and passes the gate of the code;
the capacity is unchanged when there is no such rule. -/
theorem AddInstanceTypeExtensions_first_passing (e : InstanceTypeExtender R) (hempty : e.solvedMatches = ∅)
    (np : NodePool) (cs : List (String × GoMap Quantity)) :
    ∃ e1 : InstanceTypeExtender R,
      AddInstanceTypeExtensions MatchString e (cs.map fun c => candidate c.1 c.2) (some np)
        = .ok (e1, cs.map fun c => candidate c.1
            (match e.extensions.find?
                (fun r => MatchString r.regex c.1 && labelGate r np) with
             | some r => r.extendedResources.toFinmap ∪ c.2
             | none => c.2)) := by
  refine ⟨served MatchString e np (cs.map Prod.fst), ?_⟩
  rw [AddInstanceTypeExtensions_candidates]
  congr 2
  apply List.map_congr_left
  intro c _
  have h0 : goLen (e.solvedMatches.lookup (np.Name ++ "&" ++ np.Namespace)) = 0 := by
    rw [hempty, Finmap.lookup_empty]
    rfl
  rw [outcome_of_goLen_eq_zero MatchString e np _ c.1 h0]
  have hp : passes MatchString np c.1 = fun r => MatchString r.regex c.1 && labelGate r np :=
    rfl
  rw [hp]
  cases e.extensions.find? (fun r => MatchString r.regex c.1 && labelGate r np) <;> rfl

/-- The scenario "match": the rule `ruleFpga` (pattern `^g4dn`, no required
labels, `vendor.com/fpga` = 2) and the candidate `g4dn.xlarge` with capacity
`cpu` = 4 give the capacity `cpu` = 4, `vendor.com/fpga` = 2. -/
theorem AddInstanceTypeExtensions_first_passing_example :
    engineFpga.solvedMatches = ∅
    ∧ ∃ e1 : InstanceTypeExtender String,
        AddInstanceTypeExtensions literalMatchString engineFpga
            [candidate "g4dn.xlarge" (Finmap.singleton "cpu" 4)] (some poolDefault)
          = .ok (e1, [candidate "g4dn.xlarge"
              (Finmap.insert "vendor.com/fpga" 2 (Finmap.singleton "cpu" 4))]) := by
  refine ⟨rfl, ?_⟩
  obtain ⟨e1, h⟩ := AddInstanceTypeExtensions_first_passing literalMatchString engineFpga rfl poolDefault
    [("g4dn.xlarge", Finmap.singleton "cpu" 4)]
  refine ⟨e1, ?_⟩
  have hfind : engineFpga.extensions.find?
      (fun r => literalMatchString r.regex "g4dn.xlarge" && labelGate r poolDefault)
      = some ruleFpga := List.find?_cons_of_pos [] (by decide)
  have hcap : ruleFpga.extendedResources.toFinmap ∪ (Finmap.singleton "cpu" 4 : GoMap Quantity)
      = Finmap.insert "vendor.com/fpga" 2 (Finmap.singleton "cpu" 4) :=
    (foldl_insert_eq_union ruleFpga.extendedResources (Finmap.singleton "cpu" 4)).symm
  simp only [List.map_cons, List.map_nil, hfind, hcap] at h
  exact h

/-- C7 at its failing input (the defect of C5, seen end to end).
`engineEmptyZoneFresh` has the rules `ruleEmptyZone`, `ruleFpga` and an empty
cache; the pool `default` has no labels.  The first rule that matches
`g4dn.xlarge` and passes the label gate of the specification is `ruleFpga`, so
the candidate with capacity `cpu` = 4 should end with `vendor.com/fpga` = 2.
`AddInstanceTypeExtensions` leaves it with `vendor.com/fpga` = 8, the resources
of `ruleEmptyZone`, whose required key `zone` the pool does not have.  With the
required value `us-east-1a` in place of the empty value
(`engineTwoRulesFresh`) the code does what the claim says: `vendor.com/fpga`
= 2 on the pool without labels, `vendor.com/fpga` = 8 on the pool with the
label. -/
theorem C7_missing_label_rule_applied :
    engineEmptyZoneFresh.solvedMatches = ∅
    ∧ engineEmptyZoneFresh.extensions ≠ []
    ∧ specLabelGate ruleEmptyZone poolDefault = false
    ∧ engineEmptyZoneFresh.extensions.find?
        (specPasses literalMatchString poolDefault "g4dn.xlarge") = some ruleFpga
    ∧ ruleFpga.extendedResources.toFinmap ∪ (Finmap.singleton "cpu" 4 : GoMap Quantity)
        = Finmap.insert "vendor.com/fpga" 2 (Finmap.singleton "cpu" 4)
    ∧ (∃ e1 : InstanceTypeExtender String,
        AddInstanceTypeExtensions literalMatchString engineEmptyZoneFresh
            [candidate "g4dn.xlarge" (Finmap.singleton "cpu" 4)] (some poolDefault)
          = .ok (e1, [candidate "g4dn.xlarge"
              (Finmap.insert "vendor.com/fpga" 8 (Finmap.singleton "cpu" 4))]))
    ∧ (Finmap.insert "vendor.com/fpga" 8 (Finmap.singleton "cpu" 4) : GoMap Quantity)
        ≠ Finmap.insert "vendor.com/fpga" 2 (Finmap.singleton "cpu" 4)
    ∧ (∃ e1 : InstanceTypeExtender String,
        AddInstanceTypeExtensions literalMatchString engineTwoRulesFresh
            [candidate "g4dn.xlarge" (Finmap.singleton "cpu" 4)] (some poolDefault)
          = .ok (e1, [candidate "g4dn.xlarge"
              (Finmap.insert "vendor.com/fpga" 2 (Finmap.singleton "cpu" 4))]))
    ∧ (∃ e1 : InstanceTypeExtender String,
        AddInstanceTypeExtensions literalMatchString engineTwoRulesFresh
            [candidate "g4dn.xlarge" (Finmap.singleton "cpu" 4)] (some poolDefaultEast)
          = .ok (e1, [candidate "g4dn.xlarge"
              (Finmap.insert "vendor.com/fpga" 8 (Finmap.singleton "cpu" 4))])) := by
  have hbug := AddInstanceTypeExtensions_fresh literalMatchString engineEmptyZoneFresh rfl
    poolDefault "g4dn.xlarge" (Finmap.singleton "cpu" 4)
  have hbugf : engineEmptyZoneFresh.extensions.find?
      (passes literalMatchString poolDefault "g4dn.xlarge") = some ruleEmptyZone :=
    List.find?_cons_of_pos _ (by decide)
  rw [hbugf, extended_ruleEmptyZone] at hbug
  have hplain := AddInstanceTypeExtensions_fresh literalMatchString engineTwoRulesFresh rfl
    poolDefault "g4dn.xlarge" (Finmap.singleton "cpu" 4)
  have hplainf : engineTwoRulesFresh.extensions.find?
      (passes literalMatchString poolDefault "g4dn.xlarge") = some ruleFpga :=
    (List.find?_cons_of_neg _ (by decide)).trans (List.find?_cons_of_pos _ (by decide))
  rw [hplainf, extended_ruleFpga] at hplain
  have heast := AddInstanceTypeExtensions_fresh literalMatchString engineTwoRulesFresh rfl
    poolDefaultEast "g4dn.xlarge" (Finmap.singleton "cpu" 4)
  have heastf : engineTwoRulesFresh.extensions.find?
      (passes literalMatchString poolDefaultEast "g4dn.xlarge") = some ruleZoned :=
    List.find?_cons_of_pos _ (by decide)
  rw [heastf, extended_ruleZoned] at heast
  refine ⟨rfl, by simp [engineEmptyZoneFresh], by decide, ?_,
    (foldl_insert_eq_union ruleFpga.extendedResources (Finmap.singleton "cpu" 4)).symm,
    ⟨_, hbug⟩, ?_, ⟨_, hplain⟩, ⟨_, heast⟩⟩
  · exact (List.find?_cons_of_neg _ (by decide)).trans (List.find?_cons_of_pos _ (by decide))
  · intro h
    have hl := congrArg (Finmap.lookup "vendor.com/fpga") h
    rw [Finmap.lookup_insert, Finmap.lookup_insert] at hl
    cases hl

/-- C8 (idempotence of the batch entry point).  For every engine state, present
node pool and list of present candidates with initialised capacity maps,
`AddInstanceTypeExtensions` returns an engine `e1` and candidates `out`;
invoking it again on `e1` with the same pool, whether on the candidates as the
first call left them or on the candidates as they were before it, returns the
same engine `e1` (same cache) and the same candidates `out`. -/
theorem C8_idempotent (e : InstanceTypeExtender R) (np : NodePool)
    (cs : List (String × GoMap Quantity)) :
    ∃ (e1 : InstanceTypeExtender R) (out : List (Option InstanceType)),
      AddInstanceTypeExtensions MatchString e (cs.map fun c => candidate c.1 c.2) (some np)
        = .ok (e1, out)
      ∧ AddInstanceTypeExtensions MatchString e1 out (some np) = .ok (e1, out)
      ∧ AddInstanceTypeExtensions MatchString e1 (cs.map fun c => candidate c.1 c.2) (some np)
        = .ok (e1, out) := by
  refine ⟨served MatchString e np (cs.map Prod.fst), _,
    AddInstanceTypeExtensions_candidates MatchString e np cs, ?_, ?_⟩
  · have h := AddInstanceTypeExtensions_candidates MatchString
      (served MatchString e np (cs.map Prod.fst)) np
      (cs.map fun c =>
        (c.1, extended (outcome MatchString e np (np.Name ++ "&" ++ np.Namespace) c.1) c.2))
    simp only [List.map_map, Function.comp_def, outcome_served, extended_extended] at h
    have hnames : (cs.map fun c => c.1) = cs.map Prod.fst := rfl
    rw [hnames, served_served] at h
    exact h
  · have h := AddInstanceTypeExtensions_candidates MatchString
      (served MatchString e np (cs.map Prod.fst)) np cs
    simp only [outcome_served] at h
    rw [served_served] at h
    exact h

/-- C9 at its failing input: with an absent (nil) node pool,
`AddInstanceTypeExtensions` fails with a nil dereference, for every engine and
candidate list, because `getKey` reads the name of the pool before the pool is
compared with `nil`. -/
theorem C9_nil_node_pool_fails (e : InstanceTypeExtender R)
    (instanceTypeOptions : List (Option InstanceType)) :
    getKey none = .error .nilDereference
    ∧ AddInstanceTypeExtensions MatchString e instanceTypeOptions none
      = .error .nilDereference :=
  ⟨rfl, rfl⟩

/-- C10 (zero rules means globally inert).  An engine constructed with zero
loaded rules starts with an empty cache, and every sequence of
`AddInstanceTypeExtensions` calls with present node pools on it returns with
the engine (its empty cache included) and every candidate list unchanged.  An
unreadable or unparseable configuration (`none`) and an empty one load zero
rules. -/
theorem C10_zero_rules_inert (Compile : String → Option R)
    (extensionList : Option (List extensionJson))
    (hzero : (newInstanceTypeExtender Compile extensionList).extensions = []) :
    (newInstanceTypeExtender Compile extensionList).solvedMatches = ∅
    ∧ (∀ calls : List (List (Option InstanceType) × NodePool),
        callSequence MatchString (newInstanceTypeExtender Compile extensionList)
            (calls.map fun c => (c.1, some c.2))
          = .ok (newInstanceTypeExtender Compile extensionList, calls.map Prod.fst))
    ∧ (newInstanceTypeExtender Compile none).extensions = []
    ∧ (newInstanceTypeExtender Compile (some [])).extensions = [] :=
  ⟨newInstanceTypeExtender_solvedMatches Compile extensionList,
   callSequence_inert MatchString _ hzero
     (newInstanceTypeExtender_solvedMatches Compile extensionList),
   rfl, rfl⟩

/-- Witness of C10: the engine built from an unreadable configuration, called
for `m5.large` in the pool `default`. -/
theorem C10_zero_rules_inert_witness :
    (newInstanceTypeExtender compileAny none).extensions = []
    ∧ callSequence literalMatchString (newInstanceTypeExtender compileAny none)
          [([candidate "m5.large" ∅], some poolDefault)]
        = .ok (newInstanceTypeExtender compileAny none, [[candidate "m5.large" ∅]]) :=
  ⟨rfl, (C10_zero_rules_inert literalMatchString compileAny none rfl).2.1
    [([candidate "m5.large" ∅], poolDefault)]⟩

/-- C11 (rule compilation drops only invalid rules and keeps order).  The
rule list of the engine built from the raw rules `specs` is the list of the
compiled rules of the specs whose `instanceNameRegex` compiles, in declaration
order; each compiled rule carries the required labels of its spec and a
resource list that maps every resource name to the integer quantity of the
spec; and a spec whose pattern fails to compile changes nothing for the specs
before and after it. -/
theorem C11_rule_compilation (Compile : String → Option R) (specs : List extensionJson) :
    (newInstanceTypeExtender Compile (some specs)).extensions
      = specs.filterMap (fun s =>
          (Compile s.InstanceNameRegex).map fun regex =>
            { requiredNPLabels := s.RequiredNodePoolLabels,
              regex := regex,
              extendedResources := rangeQuantities ∅ s.ExtendedResources.entries })
    ∧ (∀ (s : extensionJson) (key : String),
        (rangeQuantities ∅ s.ExtendedResources.entries).lookup key
          = s.ExtendedResources.lookup key)
    ∧ (∀ (pre post : List extensionJson) (s : extensionJson),
        specs = pre ++ s :: post → Compile s.InstanceNameRegex = none →
        (newInstanceTypeExtender Compile (some specs)).extensions
          = (newInstanceTypeExtender Compile (some (pre ++ post))).extensions) := by
  have hall : ∀ l : List extensionJson,
      (newInstanceTypeExtender Compile (some l)).extensions
        = l.filterMap (fun s =>
            (Compile s.InstanceNameRegex).map fun regex =>
              ({ requiredNPLabels := s.RequiredNodePoolLabels,
                 regex := regex,
                 extendedResources := rangeQuantities ∅ s.ExtendedResources.entries } :
                extension R)) := by
    intro l
    simp only [newInstanceTypeExtender, init]
    rw [rangeExtensionList_extensions]
    rfl
  refine ⟨hall specs, ?_, ?_⟩
  · intro s key
    rw [lookup_rangeQuantities _ s.ExtendedResources.nodupKeys]
    have : s.ExtendedResources.lookup key = s.ExtendedResources.entries.dlookup key := rfl
    rw [this, AList.lookup_empty]
    cases s.ExtendedResources.entries.dlookup key <;> rfl
  · intro pre post s hsplit hnone
    rw [hall specs, hall (pre ++ post), hsplit]
    simp [List.filterMap_append, List.filterMap_cons, hnone]

/-- Witness of C11: of the three raw rules of `specsWithInvalid` the second,
with the pattern `(`, is dropped, and the rules for `^g4dn` and `p3` load in
this order. -/
theorem C11_rule_compilation_witness :
    (newInstanceTypeExtender compileLiteral (some specsWithInvalid)).extensions
      = [ruleFpga, ruleGpu] := by
  rw [(C11_rule_compilation compileLiteral specsWithInvalid).1]
  rfl

/-- C12 (no ordering dependency between candidates).  For every engine state,
present node pool and list of present candidates with initialised capacity
maps, `AddInstanceTypeExtensions` on a permutation of the list returns the same
engine (same cache) as on the list itself, and in both runs a candidate with
name `n` and capacity `c` ends with the capacity `c` overridden by the outcome
of the pair in the engine as it was before the call, whatever its position and
whatever other candidates, also of the same name, are in the list. -/
theorem C12_order_independent (e : InstanceTypeExtender R) (np : NodePool)
    (cs1 cs2 : List (String × GoMap Quantity)) (hperm : cs1.Perm cs2) :
    ∃ e1 : InstanceTypeExtender R,
      AddInstanceTypeExtensions MatchString e (cs1.map fun c => candidate c.1 c.2) (some np)
        = .ok (e1, cs1.map fun c => candidate c.1
            (extended (outcome MatchString e np (np.Name ++ "&" ++ np.Namespace) c.1) c.2))
      ∧ AddInstanceTypeExtensions MatchString e (cs2.map fun c => candidate c.1 c.2) (some np)
        = .ok (e1, cs2.map fun c => candidate c.1
            (extended (outcome MatchString e np (np.Name ++ "&" ++ np.Namespace) c.1) c.2))
      ∧ (cs1.map fun c => candidate c.1
            (extended (outcome MatchString e np (np.Name ++ "&" ++ np.Namespace) c.1) c.2)).Perm
          (cs2.map fun c => candidate c.1
            (extended (outcome MatchString e np (np.Name ++ "&" ++ np.Namespace) c.1) c.2)) := by
  refine ⟨served MatchString e np (cs1.map Prod.fst),
    AddInstanceTypeExtensions_candidates MatchString e np cs1, ?_, hperm.map _⟩
  rw [AddInstanceTypeExtensions_candidates,
    served_perm MatchString e np (cs1.map Prod.fst) (cs2.map Prod.fst) (hperm.map _)]

/-- Witness of C12: the candidates `g4dn.xlarge` and `m5.large` in both orders
on `engineFpga`. -/
theorem C12_order_independent_witness :
    [("g4dn.xlarge", (∅ : GoMap Quantity)), ("m5.large", ∅)].Perm
        [("m5.large", ∅), ("g4dn.xlarge", ∅)]
    ∧ ∃ e1 : InstanceTypeExtender String,
        AddInstanceTypeExtensions literalMatchString engineFpga
            [candidate "g4dn.xlarge" ∅, candidate "m5.large" ∅] (some poolDefault)
          = .ok (e1, [candidate "g4dn.xlarge" (Finmap.singleton "vendor.com/fpga" 2),
                      candidate "m5.large" ∅])
        ∧ AddInstanceTypeExtensions literalMatchString engineFpga
            [candidate "m5.large" ∅, candidate "g4dn.xlarge" ∅] (some poolDefault)
          = .ok (e1, [candidate "m5.large" ∅,
                      candidate "g4dn.xlarge" (Finmap.singleton "vendor.com/fpga" 2)]) := by
  have hperm : [("g4dn.xlarge", (∅ : GoMap Quantity)), ("m5.large", ∅)].Perm
      [("m5.large", ∅), ("g4dn.xlarge", ∅)] := List.Perm.swap _ _ _
  obtain ⟨e1, h1, h2, _⟩ := C12_order_independent literalMatchString engineFpga poolDefault _ _ hperm
  have h0 : goLen (engineFpga.solvedMatches.lookup
      (poolDefault.Name ++ "&" ++ poolDefault.Namespace)) = 0 := by
    simp [engineFpga, goLen, Finmap.lookup_empty]
  have hg : outcome literalMatchString engineFpga poolDefault
      (poolDefault.Name ++ "&" ++ poolDefault.Namespace) "g4dn.xlarge" = some ruleFpga := by
    rw [outcome_of_goLen_eq_zero literalMatchString _ poolDefault _ _ h0]
    exact List.find?_cons_of_pos [] (by decide)
  have hm : outcome literalMatchString engineFpga poolDefault
      (poolDefault.Name ++ "&" ++ poolDefault.Namespace) "m5.large" = none := by
    rw [outcome_of_goLen_eq_zero literalMatchString _ poolDefault _ _ h0]
    exact (List.find?_cons_of_neg [] (by decide)).trans rfl
  have hcap : extended (some ruleFpga) (∅ : GoMap Quantity)
      = Finmap.singleton "vendor.com/fpga" 2 := by
    simp [extended, ruleFpga, Finmap.singleton, Finmap.union_empty]
  simp only [List.map_cons, List.map_nil, hg, hm, hcap] at h1 h2
  exact ⟨hperm, e1, h1, h2⟩

/-- C13 (node pool key).  `getKey` is `Name + "&" + Namespace`.  The names of
node pools are Kubernetes object names, which never contain the character `&`;
for all such node pools `p` and `q`, equal keys force equal names and equal
namespaces, and two pools that differ in name or namespace have different keys
and share no cache entries: a call for `p` leaves the cache segment of `q` as
it was. -/
theorem C13_getKey_injective (p q : NodePool) (hp : '&' ∉ p.Name.data)
    (hq : '&' ∉ q.Name.data) :
    (getKey (some p) = getKey (some q) → p.Name = q.Name ∧ p.Namespace = q.Namespace)
    ∧ ((p.Name ≠ q.Name ∨ p.Namespace ≠ q.Namespace) →
        getKey (some p) ≠ getKey (some q)
        ∧ ∀ (e : InstanceTypeExtender R) (cs : List (String × GoMap Quantity)),
            ∃ (e1 : InstanceTypeExtender R) (out : List (Option InstanceType)),
              AddInstanceTypeExtensions MatchString e (cs.map fun c => candidate c.1 c.2)
                  (some p)
                = .ok (e1, out)
              ∧ e1.solvedMatches.lookup (q.Name ++ "&" ++ q.Namespace)
                  = e.solvedMatches.lookup (q.Name ++ "&" ++ q.Namespace)) := by
  have hinj : getKey (some p) = getKey (some q) →
      p.Name = q.Name ∧ p.Namespace = q.Namespace := by
    intro hkey
    simp only [getKey, Except.ok.injEq] at hkey
    have hdata := congrArg String.data hkey
    simp only [String.data_append] at hdata
    simp only [List.append_assoc, List.singleton_append] at hdata
    obtain ⟨h1, h2⟩ := append_separator_inj '&' _ _ _ _ hp hq hdata
    exact ⟨String.ext h1, String.ext h2⟩
  refine ⟨hinj, ?_⟩
  intro hdiff
  have hne : getKey (some p) ≠ getKey (some q) := by
    intro hkey
    obtain ⟨h1, h2⟩ := hinj hkey
    rcases hdiff with h | h
    · exact h h1
    · exact h h2
  refine ⟨hne, ?_⟩
  intro e cs
  refine ⟨served MatchString e p (cs.map Prod.fst), _,
    AddInstanceTypeExtensions_candidates MatchString e p cs, ?_⟩
  apply lookup_served_other
  intro hk
  exact hne (congrArg Except.ok hk.symm)

/-- Witness of C13: the pools `default` and `gpu` differ in name and have
different keys. -/
theorem C13_getKey_injective_witness :
    '&' ∉ poolDefault.Name.data
    ∧ '&' ∉ poolGpu.Name.data
    ∧ poolDefault.Name ≠ poolGpu.Name
    ∧ getKey (some poolDefault) ≠ getKey (some poolGpu) :=
  ⟨by decide, by decide, by decide,
    ((C13_getKey_injective literalMatchString poolDefault poolGpu (by decide) (by decide)).2
      (Or.inl (by decide))).1⟩

/-- The separator is not escaped: on strings that hold `&`, which no
Kubernetes object name does, `getKey` is not injective; `a&b` with an empty
namespace and `a` with the namespace `b&` both give `a&b&`. -/
theorem getKey_separator_collision :
    getKey (some poolAmpName) = getKey (some poolAmpNamespace)
    ∧ poolAmpName.Name ≠ poolAmpNamespace.Name
    ∧ poolAmpName.Namespace ≠ poolAmpNamespace.Namespace := by
  have hkey : poolAmpName.Name ++ "&" ++ poolAmpName.Namespace
      = poolAmpNamespace.Name ++ "&" ++ poolAmpNamespace.Namespace := by decide
  exact ⟨congrArg Except.ok hkey, by decide, by decide⟩

/-- C14 (substring, unanchored name matching).  On the modelled `MatchString`
a pattern without a leading `^` matches a name exactly when its characters
occur somewhere in the name; the pattern `p3` matches both `p3.2xlarge` and
`big-p3-node`; and the engine with the rule `ruleGpu` (pattern `p3`, no
required labels) resolves candidates of either name to that rule, for every
node pool: the rule is applied and cached. -/
theorem C14_substring_matching :
    (∀ pattern name : String, pattern.data.head? ≠ some '^' →
      (literalMatchString pattern name = true
        ↔ ∃ pre post, name.data = pre ++ pattern.data ++ post))
    ∧ literalMatchString "p3" "p3.2xlarge" = true
    ∧ literalMatchString "p3" "big-p3-node" = true
    ∧ (∀ (np : NodePool) (cap1 cap2 : GoMap Quantity),
        ∃ e1 : InstanceTypeExtender String,
          AddInstanceTypeExtensions literalMatchString engineGpu
              [candidate "p3.2xlarge" cap1, candidate "big-p3-node" cap2] (some np)
            = .ok (e1, [candidate "p3.2xlarge" (Finmap.insert "nvidia.com/gpu" 4 cap1),
                        candidate "big-p3-node" (Finmap.insert "nvidia.com/gpu" 4 cap2)])
          ∧ cached e1 (np.Name ++ "&" ++ np.Namespace) "p3.2xlarge" = some (some ruleGpu)
          ∧ cached e1 (np.Name ++ "&" ++ np.Namespace) "big-p3-node" = some (some ruleGpu)) := by
  refine ⟨?_, by decide, by decide, ?_⟩
  · intro pattern name hhead
    unfold literalMatchString
    split
    · rename_i p hp
      rw [hp] at hhead
      exact absurd rfl hhead
    · exact charsOccur_iff _ _
  · intro np cap1 cap2
    have h0 : goLen (engineGpu.solvedMatches.lookup (np.Name ++ "&" ++ np.Namespace)) = 0 := by
      simp [engineGpu, goLen, Finmap.lookup_empty]
    have hgate : labelGate ruleGpu np = true := labelGate_of_no_labels ruleGpu np rfl
    have ho : ∀ n, literalMatchString "p3" n = true →
        outcome literalMatchString engineGpu np (np.Name ++ "&" ++ np.Namespace) n
          = some ruleGpu := by
      intro n hn
      rw [outcome_of_goLen_eq_zero literalMatchString _ np _ _ h0]
      exact List.find?_cons_of_pos []
        ((passes_eq_true_iff literalMatchString np n ruleGpu).2 ⟨hn, hgate⟩)
    have hcap : ∀ cap : GoMap Quantity,
        extended (some ruleGpu) cap = Finmap.insert "nvidia.com/gpu" 4 cap := fun cap =>
      (foldl_insert_eq_union ruleGpu.extendedResources cap).symm
    have hslow : ¬ (engineGpu.extensions = []
        ∧ goLen (engineGpu.solvedMatches.lookup (np.Name ++ "&" ++ np.Namespace)) = 0) := by
      simp [engineGpu]
    refine ⟨served literalMatchString engineGpu np ["p3.2xlarge", "big-p3-node"], ?_, ?_, ?_⟩
    · have h := AddInstanceTypeExtensions_candidates literalMatchString engineGpu np
        [("p3.2xlarge", cap1), ("big-p3-node", cap2)]
      simp only [List.map_cons, List.map_nil, ho _ (by decide : literalMatchString "p3"
        "p3.2xlarge" = true), ho _ (by decide : literalMatchString "p3" "big-p3-node" = true),
        hcap] at h
      exact h
    · rw [cached_served literalMatchString engineGpu np _ hslow, if_pos (by simp),
        ho _ (by decide)]
    · rw [cached_served literalMatchString engineGpu np _ hslow, if_pos (by simp),
        ho _ (by decide)]

/-- C15 (caching is transparent when labels are stable).  On the engine as
constructed with the rule list `rules` (empty cache), for every sequence of
`AddInstanceTypeExtensions` calls with present node pools and present
candidates with initialised capacity maps, in which two pools with the same key
always have the same labels, the sequence returns and every call leaves every
candidate as the cache-free engine `cacheFree` does, which rescans the rule
list for that candidate on that call. -/
theorem C15_cache_transparent (rules : List (extension R))
    (calls : List (List (String × GoMap Quantity) × NodePool))
    (hstable : ∀ c1 ∈ calls, ∀ c2 ∈ calls,
      c1.2.Name ++ "&" ++ c1.2.Namespace = c2.2.Name ++ "&" ++ c2.2.Namespace →
      c1.2.Labels = c2.2.Labels) :
    ∃ e1 : InstanceTypeExtender R,
      callSequence MatchString { solvedMatches := ∅, extensions := rules }
          (calls.map fun c => (c.1.map fun x => candidate x.1 x.2, some c.2))
        = .ok (e1, calls.map fun c => c.1.map (cacheFree MatchString rules c.2)) := by
  apply callSequence_cacheFree MatchString calls { solvedMatches := ∅, extensions := rules }
    hstable
  intro c _ n o hc
  simp [cached, Finmap.lookup_empty] at hc

/-- Witness of C15: two calls for `g4dn.xlarge` in the pool `default` on the
engine with the rule `ruleFpga`; the second call is served from the cache and
gives what the rescan gives. -/
theorem C15_cache_transparent_witness :
    (∀ c1 ∈ [([("g4dn.xlarge", (∅ : GoMap Quantity))], poolDefault),
              ([("g4dn.xlarge", ∅)], poolDefault)],
      ∀ c2 ∈ [([("g4dn.xlarge", (∅ : GoMap Quantity))], poolDefault),
              ([("g4dn.xlarge", ∅)], poolDefault)],
      c1.2.Name ++ "&" ++ c1.2.Namespace = c2.2.Name ++ "&" ++ c2.2.Namespace →
      c1.2.Labels = c2.2.Labels)
    ∧ ∃ e1 : InstanceTypeExtender String,
        callSequence literalMatchString engineFpga
            [([candidate "g4dn.xlarge" ∅], some poolDefault),
             ([candidate "g4dn.xlarge" ∅], some poolDefault)]
          = .ok (e1, [[cacheFree literalMatchString [ruleFpga] poolDefault ("g4dn.xlarge", ∅)],
                      [cacheFree literalMatchString [ruleFpga] poolDefault
                        ("g4dn.xlarge", ∅)]]) := by
  have hstable : ∀ c1 ∈ [([("g4dn.xlarge", (∅ : GoMap Quantity))], poolDefault),
        ([("g4dn.xlarge", ∅)], poolDefault)],
      ∀ c2 ∈ [([("g4dn.xlarge", (∅ : GoMap Quantity))], poolDefault),
        ([("g4dn.xlarge", ∅)], poolDefault)],
      c1.2.Name ++ "&" ++ c1.2.Namespace = c2.2.Name ++ "&" ++ c2.2.Namespace →
      c1.2.Labels = c2.2.Labels := by
    intro c1 h1 c2 h2 _
    simp only [List.mem_cons, List.mem_singleton, List.not_mem_nil, or_false, or_self] at h1 h2
    rw [h1, h2]
  exact ⟨hstable, C15_cache_transparent literalMatchString [ruleFpga] _ hstable⟩

/-- C16, as amended (batches compose in input order).  For every engine state,
present node pool and lists `xs`, `ys` of present candidates with initialised
capacity maps, `AddInstanceTypeExtensions` on `xs ++ ys` returns the same
engine (same cache) and the same candidates as the call on `xs` followed by the
call on `ys`.  After the call on the prefix `xs` the cache holds entries exactly
for the pairs it held before and for the names of `xs` under the key of the
pool, unless the engine has no rules and no cached entries for the pool: then
the call returns on the fast path and the engine is unchanged. -/
theorem C16_batches_compose (e : InstanceTypeExtender R) (np : NodePool)
    (xs ys : List (String × GoMap Quantity)) :
    ∃ (e1 e2 : InstanceTypeExtender R) (outx outy : List (Option InstanceType)),
      AddInstanceTypeExtensions MatchString e (xs.map fun c => candidate c.1 c.2) (some np)
        = .ok (e1, outx)
      ∧ AddInstanceTypeExtensions MatchString e1 (ys.map fun c => candidate c.1 c.2) (some np)
        = .ok (e2, outy)
      ∧ AddInstanceTypeExtensions MatchString e ((xs ++ ys).map fun c => candidate c.1 c.2)
          (some np)
        = .ok (e2, outx ++ outy)
      ∧ (e.extensions = []
          ∧ goLen (e.solvedMatches.lookup (np.Name ++ "&" ++ np.Namespace)) = 0 → e1 = e)
      ∧ (¬ (e.extensions = []
            ∧ goLen (e.solvedMatches.lookup (np.Name ++ "&" ++ np.Namespace)) = 0) →
          ∀ k n, (cached e1 k n).isSome = true
            ↔ ((cached e k n).isSome = true
                ∨ (k = np.Name ++ "&" ++ np.Namespace ∧ n ∈ xs.map Prod.fst))) := by
  refine ⟨served MatchString e np (xs.map Prod.fst),
    served MatchString e np ((xs ++ ys).map Prod.fst),
    xs.map (fun c => candidate c.1
      (extended (outcome MatchString e np (np.Name ++ "&" ++ np.Namespace) c.1) c.2)),
    ys.map (fun c => candidate c.1
      (extended (outcome MatchString e np (np.Name ++ "&" ++ np.Namespace) c.1) c.2)),
    AddInstanceTypeExtensions_candidates MatchString e np xs, ?_, ?_, ?_, ?_⟩
  · rw [AddInstanceTypeExtensions_candidates, served_append, List.map_append]
    simp only [outcome_served]
  · rw [AddInstanceTypeExtensions_candidates, List.map_append, List.map_append]
  · intro hfast
    exact served_of_fast MatchString e np _ hfast.1 hfast.2
  · intro hslow k n
    by_cases hk : k = np.Name ++ "&" ++ np.Namespace
    · subst hk
      rw [cached_served MatchString e np _ hslow]
      by_cases hn : n ∈ xs.map Prod.fst
      · simp [hn]
      · simp [hn]
    · rw [cached_served_other MatchString e np _ k n hk]
      simp [hk]

/-- Witness of C16 as amended, on `engineFpga` with the prefix `g4dn.xlarge`
and the rest `m5.large`: after the prefix the cache has an entry for
`g4dn.xlarge` and none for `m5.large`. -/
theorem C16_batches_compose_witness :
    ¬ (engineFpga.extensions = []
        ∧ goLen (engineFpga.solvedMatches.lookup
            (poolDefault.Name ++ "&" ++ poolDefault.Namespace)) = 0)
    ∧ ∃ (e1 e2 : InstanceTypeExtender String) (outx outy : List (Option InstanceType)),
        AddInstanceTypeExtensions literalMatchString engineFpga [candidate "g4dn.xlarge" ∅]
            (some poolDefault)
          = .ok (e1, outx)
        ∧ AddInstanceTypeExtensions literalMatchString e1 [candidate "m5.large" ∅]
            (some poolDefault)
          = .ok (e2, outy)
        ∧ AddInstanceTypeExtensions literalMatchString engineFpga
            [candidate "g4dn.xlarge" ∅, candidate "m5.large" ∅] (some poolDefault)
          = .ok (e2, outx ++ outy)
        ∧ (cached e1 "default&" "g4dn.xlarge").isSome = true
        ∧ (cached e1 "default&" "m5.large").isSome = false := by
  have hslow : ¬ (engineFpga.extensions = []
      ∧ goLen (engineFpga.solvedMatches.lookup
          (poolDefault.Name ++ "&" ++ poolDefault.Namespace)) = 0) := by
    simp [engineFpga]
  have hkey : poolDefault.Name ++ "&" ++ poolDefault.Namespace = "default&" := by decide
  obtain ⟨e1, e2, outx, outy, h1, h2, h3, _, hiff⟩ :=
    C16_batches_compose literalMatchString engineFpga poolDefault
      [("g4dn.xlarge", ∅)] [("m5.large", ∅)]
  have hnone : ∀ n, cached engineFpga "default&" n = none := by
    intro n
    simp [cached, engineFpga, Finmap.lookup_empty]
  refine ⟨hslow, e1, e2, outx, outy, h1, h2, h3, ?_, ?_⟩
  · exact (hiff hslow "default&" "g4dn.xlarge").2 (Or.inr ⟨hkey.symm, by simp⟩)
  · cases hc : (cached e1 "default&" "m5.large").isSome with
    | false => rfl
    | true =>
      rcases (hiff hslow "default&" "m5.large").1 hc with h | ⟨_, h⟩
      · rw [hnone] at h
        cases h
      · simp at h

/-- Counterexample to C16 as stated: on `engineEmpty` (no rules, no cache) the
call on the prefix `m5.large` returns with the engine unchanged, so afterwards
the cache holds no entry for `m5.large`, a name of the processed prefix. -/
theorem C16_counterexample :
    AddInstanceTypeExtensions literalMatchString engineEmpty [candidate "m5.large" ∅]
        (some poolDefault)
      = .ok (engineEmpty, [candidate "m5.large" ∅])
    ∧ "m5.large" ∈ [("m5.large", (∅ : GoMap Quantity))].map Prod.fst
    ∧ cached engineEmpty "default&" "m5.large" = none := by
  have h2 : goLen (engineEmpty.solvedMatches.lookup
      (poolDefault.Name ++ "&" ++ poolDefault.Namespace)) = 0 := by
    simp [engineEmpty, goLen, Finmap.lookup_empty]
  refine ⟨AddInstanceTypeExtensions_fast literalMatchString engineEmpty poolDefault rfl h2 _,
    by simp, ?_⟩
  simp [cached, engineEmpty, Finmap.lookup_empty]

/-- C17 (no failure under well-formed inputs).  For every engine state, every
present node pool (labels absent or not) and every list of present candidates
with initialised capacity maps, `AddInstanceTypeExtensions` returns, and so
does every sequence of such calls.  The call either returns at the guard or
runs the loop on the engine `prepared`, in which the cache segment of the pool
is initialised; with the segment initialised, `addInstanceTypeExtensions` on
such a candidate returns and leaves the segment initialised, so every store in
the loop finds it; without the segment the store would fail. -/
theorem C17_no_failure (e : InstanceTypeExtender R) (np : NodePool)
    (cs : List (String × GoMap Quantity)) :
    (∃ (e1 : InstanceTypeExtender R) (out : List (Option InstanceType)),
      AddInstanceTypeExtensions MatchString e (cs.map fun c => candidate c.1 c.2) (some np)
        = .ok (e1, out))
    ∧ (∀ calls : List (List (String × GoMap Quantity) × NodePool),
        ∃ (e1 : InstanceTypeExtender R) (outs : List (List (Option InstanceType))),
          callSequence MatchString e
              (calls.map fun c => (c.1.map fun x => candidate x.1 x.2, some c.2))
            = .ok (e1, outs))
    ∧ (∀ its : List (Option InstanceType),
        AddInstanceTypeExtensions MatchString e its (some np)
          = if (goLen (e.solvedMatches.lookup (np.Name ++ "&" ++ np.Namespace)) == 0
                  && e.extensions.length == 0) || its.length == 0 then .ok (e, its)
            else rangeInstanceTypes MatchString (np.Name ++ "&" ++ np.Namespace) (some np)
              (prepared e (np.Name ++ "&" ++ np.Namespace)) its)
    ∧ ((prepared e (np.Name ++ "&" ++ np.Namespace)).solvedMatches.lookup
          (np.Name ++ "&" ++ np.Namespace)).isSome = true
    ∧ (∀ (e0 : InstanceTypeExtender R) (poolKey name : String) (cap : GoMap Quantity),
        (e0.solvedMatches.lookup poolKey).isSome = true →
        ∃ (e1 : InstanceTypeExtender R) (it1 : Option InstanceType),
          addInstanceTypeExtensions MatchString e0 poolKey (candidate name cap) (some np)
            = .ok (e1, it1)
          ∧ (e1.solvedMatches.lookup poolKey).isSome = true)
    ∧ (∀ (e0 : InstanceTypeExtender R) (poolKey name : String) (cap : GoMap Quantity),
        e0.solvedMatches.lookup poolKey = none →
        addInstanceTypeExtensions MatchString e0 poolKey (candidate name cap) (some np)
          = .error .nilMapAssignment) := by
  refine ⟨⟨_, _, AddInstanceTypeExtensions_candidates MatchString e np cs⟩,
    fun calls => callSequence_candidates_ok MatchString calls e,
    AddInstanceTypeExtensions_unfold MatchString e np, prepared_isSome e _, ?_, ?_⟩
  · intro e0 poolKey name cap hseg
    obtain ⟨seg, hs⟩ := Option.isSome_iff_exists.1 hseg
    exact ⟨_, _, addInstanceTypeExtensions_candidate MatchString e0 poolKey seg hs name cap np,
      resolved_isSome MatchString e0 np poolKey name hseg⟩
  · intro e0 poolKey name cap hs
    exact addInstanceTypeExtensions_unprepared MatchString e0 poolKey hs name cap np

/-- Witness of C17: on `engineFpga`, whose cache has no segment for the pool
`default`, the store of `addInstanceTypeExtensions` alone fails, and the batch
call, which initialises the segment first, returns. -/
theorem C17_no_failure_witness :
    engineFpga.solvedMatches.lookup "default&" = none
    ∧ addInstanceTypeExtensions literalMatchString engineFpga "default&"
          (candidate "g4dn.xlarge" ∅) (some poolDefault)
        = .error .nilMapAssignment
    ∧ ∃ (e1 : InstanceTypeExtender String) (out : List (Option InstanceType)),
        AddInstanceTypeExtensions literalMatchString engineFpga [candidate "g4dn.xlarge" ∅]
            (some poolDefault)
          = .ok (e1, out) := by
  have hs : engineFpga.solvedMatches.lookup "default&" = none := Finmap.lookup_empty _
  have h := C17_no_failure literalMatchString engineFpga poolDefault [("g4dn.xlarge", ∅)]
  exact ⟨hs, h.2.2.2.2.2 engineFpga "default&" "g4dn.xlarge" ∅ hs, h.1⟩

/-- C18 (per-pool cache isolation and monotone growth).  For every engine
state, present node pool with key `k` and list of present candidates with
initialised capacity maps, `AddInstanceTypeExtensions` returns an engine in
which the cache segment of every other pool key is unchanged, every entry that
existed under `k` is still there with the same outcome, and, unless the engine
has no rules and no cached entries under `k` (the fast path), every candidate
name of the list has an entry under `k`; a rule cached by the call under a name
that had no entry is an element of the rule list of the engine, which the call
leaves unchanged. -/
theorem C18_cache_frame (e : InstanceTypeExtender R) (np : NodePool)
    (cs : List (String × GoMap Quantity)) :
    ∃ (e1 : InstanceTypeExtender R) (out : List (Option InstanceType)),
      AddInstanceTypeExtensions MatchString e (cs.map fun c => candidate c.1 c.2) (some np)
        = .ok (e1, out)
      ∧ (∀ k, k ≠ np.Name ++ "&" ++ np.Namespace →
          e1.solvedMatches.lookup k = e.solvedMatches.lookup k)
      ∧ (∀ n o, cached e (np.Name ++ "&" ++ np.Namespace) n = some o →
          cached e1 (np.Name ++ "&" ++ np.Namespace) n = some o)
      ∧ (¬ (e.extensions = []
            ∧ goLen (e.solvedMatches.lookup (np.Name ++ "&" ++ np.Namespace)) = 0) →
          ∀ c ∈ cs, (cached e1 (np.Name ++ "&" ++ np.Namespace) c.1).isSome = true)
      ∧ (∀ n r, cached e (np.Name ++ "&" ++ np.Namespace) n = none →
          cached e1 (np.Name ++ "&" ++ np.Namespace) n = some (some r) → r ∈ e.extensions)
      ∧ e1.extensions = e.extensions := by
  refine ⟨served MatchString e np (cs.map Prod.fst), _,
    AddInstanceTypeExtensions_candidates MatchString e np cs, ?_, ?_, ?_, ?_, ?_⟩
  · intro k hk
    exact lookup_served_other MatchString e np _ k hk
  · intro n o h
    exact cached_served_of_cached MatchString e np _ _ n o h
  · intro hslow c hc
    rw [cached_served MatchString e np _ hslow,
      if_pos (List.mem_map.2 ⟨c, hc, rfl⟩)]
    rfl
  · intro n r hnone hsome
    rcases cached_served_cases MatchString e np _ n _ hsome with h | ⟨_, _, h⟩
    · rw [hnone] at h
      cases h
    · exact List.mem_of_find?_eq_some h.symm
  · exact served_extensions MatchString e np _

/-- Witness of C18 on `engineFpga` with the candidate `g4dn.xlarge`: the engine
has a rule, so the call is not on the fast path and the name is cached. -/
theorem C18_cache_frame_witness :
    ¬ (engineFpga.extensions = []
        ∧ goLen (engineFpga.solvedMatches.lookup
            (poolDefault.Name ++ "&" ++ poolDefault.Namespace)) = 0)
    ∧ ∃ (e1 : InstanceTypeExtender String) (out : List (Option InstanceType)),
        AddInstanceTypeExtensions literalMatchString engineFpga [candidate "g4dn.xlarge" ∅]
            (some poolDefault)
          = .ok (e1, out)
        ∧ (cached e1 (poolDefault.Name ++ "&" ++ poolDefault.Namespace) "g4dn.xlarge").isSome
            = true := by
  have hslow : ¬ (engineFpga.extensions = []
      ∧ goLen (engineFpga.solvedMatches.lookup
          (poolDefault.Name ++ "&" ++ poolDefault.Namespace)) = 0) := by
    simp [engineFpga]
  obtain ⟨e1, out, hcall, _, _, hall, _, _⟩ :=
    C18_cache_frame literalMatchString engineFpga poolDefault [("g4dn.xlarge", ∅)]
  exact ⟨hslow, e1, out, hcall, hall hslow ("g4dn.xlarge", ∅) (by simp)⟩

end Claims
end Provisioning
